import Mathlib

/-! Fuzz-input test sets of `testza` (`fuzz-strings.go`, `fuzz-bools.go`):
a shallow embedding of the Go sources, and the properties proved of it.

* A Go slice is a `List`; a Go `string` is a `String`, and `[]rune` is a `List Char`.
* A Go `int` that can be negative (`max`, `count`, `length`) is an `Int`; a `range` index is a
  `Nat`.
* A run-time panic is the `error` side of `Except GoPanic`.  `make` panics on a negative length
  and on a length whose size in bytes is over the allocation limit `maxAlloc` of the runtime;
  an allocation within that limit succeeds.
* The process-wide generator of `math/rand` is an explicit `RandSource` that is passed through
  every function that draws from it.
* The host test context of `RunTests` is a record of its capabilities, and a run of `RunTests`
  is the list of the calls it makes on the host, in order; `test.Run` runs the function of a
  sub-test before it returns.
* Where the storage of a slice matters, the transforms are given again over slice headers and a
  store of backing arrays, and related to the embedding over lists.
-/

namespace Testza

/-! ## Run-time panics -/

/-- The run-time panics that the statements used in the sources can raise. -/
inductive GoPanic where
  /-- The panic of `make([]T, n)` with `n < 0`, or with `n` elements over the allocation limit of
  the runtime. -/
  | makesliceLenOutOfRange
  /-- The panic of `s[:hi]` with `hi` outside `0 .. cap(s)`. -/
  | sliceBoundsOutOfRange
  /-- The panic of `s[i]` with `i` outside `0 .. len(s) - 1`. -/
  | indexOutOfRange
  /-- The panic of `rand.Intn(n)` with `n <= 0`. -/
  | intnInvalidArgument
  deriving DecidableEq, Repr

/-! ## `FuzzInputStringModify`, `FuzzInputBoolModify` -/

/-- The loop `for i, str := range inputSlice { ret = append(ret, modifier(i, str)) }` of
`FuzzInputStringModify`, at index `i`, with the elements still to visit and the value of `ret`. -/
def FuzzInputStringModify.loop (modifier : Nat → String → String) :
    Nat → List String → List String → List String
  | _, [], ret => ret
  | i, str :: rest, ret => FuzzInputStringModify.loop modifier (i + 1) rest (ret ++ [modifier i str])

/-- The function `FuzzInputStringModify(inputSlice, modifier)`: `ret` starts as the nil slice. -/
def FuzzInputStringModify (inputSlice : List String) (modifier : Nat → String → String) :
    List String :=
  FuzzInputStringModify.loop modifier 0 inputSlice []

/-- The loop `for i, input := range inputSlice { floats = append(floats, modifier(i, input)) }`
of `FuzzInputBoolModify`. -/
def FuzzInputBoolModify.loop (modifier : Nat → Bool → Bool) :
    Nat → List Bool → List Bool → List Bool
  | _, [], floats => floats
  | i, input :: rest, floats =>
    FuzzInputBoolModify.loop modifier (i + 1) rest (floats ++ [modifier i input])

/-- The function `FuzzInputBoolModify(inputSlice, modifier)`. -/
def FuzzInputBoolModify (inputSlice : List Bool) (modifier : Nat → Bool → Bool) : List Bool :=
  FuzzInputBoolModify.loop modifier 0 inputSlice []

/-! ## `FuzzInputStringLimit` -/

/-- The slice expression `s[:hi]`: it panics unless `0 <= hi <= cap(s)`; the capacity is taken
to be the length, the least it can be. -/
def sliceTo (s : List String) (hi : Int) : Except GoPanic (List String) :=
  if 0 ≤ hi ∧ hi ≤ (s.length : Int) then .ok (s.take hi.toNat) else .error .sliceBoundsOutOfRange

/-- The function `FuzzInputStringLimit(testSet, max)`. -/
def FuzzInputStringLimit (testSet : List String) (max : Int) : Except GoPanic (List String) :=
  if (testSet.length : Int) ≤ max then
    .ok testSet
  else if max ≤ 0 then
    .ok []
  else
    sliceTo testSet max

/-! ## The random source and `FuzzInputStringGenerateRandom` -/

/-- The state of the pseudo-random generator of `math/rand`: the raw outcomes it will produce,
and how many of them have been drawn so far. -/
structure RandSource where
  /-- The raw outcome of the `k`-th draw. -/
  outcomes : Nat → Nat
  /-- The number of draws made so far. -/
  drawn : Nat

/-- The call `rand.Intn(n)`: a number in `[0, n)`, and the generator one draw further; it panics
when `n <= 0`. -/
def RandSource.Intn (src : RandSource) (n : Int) : Except GoPanic (Int × RandSource) :=
  if n ≤ 0 then .error .intnInvalidArgument
  else .ok ((src.outcomes src.drawn : Int) % n, { src with drawn := src.drawn + 1 })

/-- The local `letters` of `FuzzInputStringGenerateRandom`. -/
def letters : List Char :=
  "abcdefghijklmnopqrstuvwxyzABCDEFGHIJKLMNOPQRSTUVWXYZ0123456789".toList

/-- The constant `maxAlloc` of the Go runtime, the largest size in bytes of one allocation:
`1 << 48` on the 64-bit platforms with 48 address bits (linux/amd64 among them). -/
def maxAlloc : Int := 281474976710656

/-- The expression `make([]rune, length)`: `length` zero runes.  As `makeslice` of the runtime
does, it panics when `length` is negative and when the size in bytes, 4 for each rune, overflows
or is over `maxAlloc` (the product is taken in `Int`, where it cannot overflow, so the one
comparison covers both). -/
def makeRunes (length : Int) : Except GoPanic (List Char) :=
  if length < 0 ∨ maxAlloc < 4 * length then .error .makesliceLenOutOfRange
  else .ok (List.replicate length.toNat (Char.ofNat 0))

/-- The index expression `s[k]` on a rune slice. -/
def indexRunes (s : List Char) (k : Int) : Except GoPanic Char :=
  if k < 0 then .error .indexOutOfRange
  else
    match s.get? k.toNat with
    | some c => .ok c
    | none => .error .indexOutOfRange

/-- The assignment `s[i] = c` on a rune slice. -/
def assignRunes (s : List Char) (i : Nat) (c : Char) : Except GoPanic (List Char) :=
  if i < s.length then .ok (s.set i c) else .error .indexOutOfRange

/-- The loop `for i := range str { str[i] = letters[rand.Intn(len(letters))] }`: `n` is the
number of iterations left (`len(str)` is read once, on entry), `i` the index. -/
def FuzzInputStringGenerateRandom.fill :
    Nat → Nat → List Char → RandSource → Except GoPanic (List Char × RandSource)
  | 0, _, str, src => .ok (str, src)
  | n + 1, i, str, src =>
    match src.Intn (letters.length : Int) with
    | .error e => .error e
    | .ok (k, src1) =>
      match indexRunes letters k with
      | .error e => .error e
      | .ok c =>
        match assignRunes str i c with
        | .error e => .error e
        | .ok str1 => FuzzInputStringGenerateRandom.fill n (i + 1) str1 src1

/-- The loop `for i := 0; i < count; i++ { ... }` of `FuzzInputStringGenerateRandom`: `n` is the
number of iterations left, `count - i`. -/
def FuzzInputStringGenerateRandom.loop (length : Int) :
    Nat → List String → RandSource → Except GoPanic (List String × RandSource)
  | 0, result, src => .ok (result, src)
  | n + 1, result, src =>
    match makeRunes length with
    | .error e => .error e
    | .ok str =>
      match FuzzInputStringGenerateRandom.fill str.length 0 str src with
      | .error e => .error e
      | .ok (str1, src1) =>
        FuzzInputStringGenerateRandom.loop length n (result ++ [String.mk str1]) src1

/-- The function `FuzzInputStringGenerateRandom(count, length)`: the loop runs `count` times
when `count` is positive and not at all otherwise; `result` starts as the nil slice. -/
def FuzzInputStringGenerateRandom (count length : Int) (src : RandSource) :
    Except GoPanic (List String × RandSource) :=
  FuzzInputStringGenerateRandom.loop length count.toNat [] src

/-! ## The fixed catalogs -/

/-- The function `FuzzInputStringEmpty()`. -/
def FuzzInputStringEmpty : List String := [""]

/-- The local `positiveNumbers` of `FuzzInputStringNumeric`. -/
def positiveNumbers : List String :=
  ["0", "1", "2", "3", "100", "1.1", "1337", "13.37", "0.000000000001", "9223372036854775807"]

/-- The function `FuzzInputStringNumeric()`: `negativeNumbers` is `positiveNumbers` through
`FuzzInputStringModify` with the modifier `"-" + value`. -/
def FuzzInputStringNumeric : List String :=
  let negativeNumbers := FuzzInputStringModify positiveNumbers (fun _index value => "-" ++ value)
  positiveNumbers ++ negativeNumbers

/-- The function `FuzzInputStringUsernames()`. -/
def FuzzInputStringUsernames : List String :=
  ["MarvinJWendt", "Zipper1337", "n00b", "l33t", "j0rgan", "test", "test123", "TEST", "test_",
    "TEST_"]

/-- The function `FuzzInputStringEmailAddresses()`. -/
def FuzzInputStringEmailAddresses : List String :=
  [ "hello@world.com",
    "hello+world@example.com",
    "hello.world@example.com",
    "a@a.xyz",
    "test@127.0.0.1",
    "test@[127.0.0.1]",
    "1@example.com",
    "_____@example.com",
    "test@subdomain.domain.xyz",
    "valid.”email\\ address@example.com",
    "first.last@iana.org",
    "1234567890123456789012345678901234567890123456789012345678901234@iana.org",
    "\"first\\\"last\"@iana.org",
    "\"first@last\"@iana.org",
    "\"first\\\\last\"@iana.org",
    "x@x23456789.x23456789.x23456789.x23456789.x23456789.x23456789.x23456789.x23456789.x23456789.x23456789.x23456789.x23456789.x23456789.x23456789.x23456789.x23456789.x23456789.x23456789.x23456789.x23456789.x23456789.x23456789.x23456789.x23456789.x23456789.x2",
    "1234567890123456789012345678901234567890123456789012345678@12345678901234567890123456789012345678901234567890123456789.12345678901234567890123456789012345678901234567890123456789.123456789012345678901234567890123456789012345678901234567890123.iana.org",
    "first.last@[12.34.56.78]",
    "first.last@[IPv6:::12.34.56.78]",
    "first.last@[IPv6:::b3:b4]",
    "first.last@[IPv6:::]",
    "first.last@[IPv6:1111:2222:3333::4444:12.34.56.78]",
    "\"first\\last\"@iana.org",
    "user+mailbox@iana.org",
    "customer/department@iana.org ",
    "customer/department=shipping@iana.org",
    "\"Doug \\\"Ace\\\" L.\"@iana.org",
    "+1~1+@iana.org",
    "\x7b_test_\x7d@iana.org",
    "\"[[ test ]]\"@iana.org",
    "\"test&#13;&#10; blah\"@iana.org",
    "(foo)cal(bar)@(baz)iamcal.com(quux)",
    "cal(woo(yay)hoopla)@iamcal.com",
    "cal(foo\\@bar)@iamcal.com",
    "cal(foo\\)bar)@iamcal.com",
    "first(Welcome to&#13;&#10; the (\"wonderful\" (!)) world&#13;&#10; of email)@iana.org",
    "pete(his account)@silly.test(his host)",
    "c@(Chris\x27s host.)public.example" ]

/-- The function `FuzzInputStringHtmlTags()`. -/
def FuzzInputStringHtmlTags : List String :=
  [ "<script>alert(\x27XSS\x27)</script>",
    "<script>",
    "<a href=\"https://github.com/MarvinJWendt/testza\">link</a>",
    "</body>",
    "</html>" ]

/-- The function `FuzzInputBoolFull()`. -/
def FuzzInputBoolFull : List Bool := [true, false]

/-! ## `FuzzInputStringLong`, `FuzzInputStringFull` -/

/-- The function `FuzzInputStringLong()`: five calls of the generator, each appended to
`testSet`, which starts as the nil slice. -/
def FuzzInputStringLong (src : RandSource) : Except GoPanic (List String × RandSource) :=
  match FuzzInputStringGenerateRandom 1 25 src with
  | .error e => .error e
  | .ok (r1, src1) =>
    match FuzzInputStringGenerateRandom 1 50 src1 with
    | .error e => .error e
    | .ok (r2, src2) =>
      match FuzzInputStringGenerateRandom 1 100 src2 with
      | .error e => .error e
      | .ok (r3, src3) =>
        match FuzzInputStringGenerateRandom 1 1000 src3 with
        | .error e => .error e
        | .ok (r4, src4) =>
          match FuzzInputStringGenerateRandom 1 100000 src4 with
          | .error e => .error e
          | .ok (r5, src5) => .ok (((((([] ++ r1) ++ r2) ++ r3) ++ r4) ++ r5), src5)

/-- The loop `for i := 0; i < 10; i++ { ret = append(ret, FuzzInputStringGenerateRandom(1, i)...) }`
of `FuzzInputStringFull`: `n` is the number of iterations left, `10 - i`. -/
def FuzzInputStringFull.loop :
    Nat → Int → List String → RandSource → Except GoPanic (List String × RandSource)
  | 0, _, ret, src => .ok (ret, src)
  | n + 1, i, ret, src =>
    match FuzzInputStringGenerateRandom 1 i src with
    | .error e => .error e
    | .ok (r, src1) => FuzzInputStringFull.loop n (i + 1) (ret ++ r) src1

/-- The function `FuzzInputStringFull()`. -/
def FuzzInputStringFull (src : RandSource) : Except GoPanic (List String × RandSource) :=
  let ret : List String := []
  let ret := ret ++ FuzzInputStringUsernames
  let ret := ret ++ FuzzInputStringHtmlTags
  let ret := ret ++ FuzzInputStringEmailAddresses
  let ret := ret ++ FuzzInputStringEmpty
  let ret := ret ++ FuzzInputStringNumeric
  match FuzzInputStringLong src with
  | .error e => .error e
  | .ok (long, src1) => FuzzInputStringFull.loop 10 0 (ret ++ long) src1

/-! ## The host test context and `RunTests` -/

/-- The errors of the package `internal` that `RunTests` reports. -/
inductive HostError where
  /-- The value `internal.ErrCanNotRunIfNotBuiltinTesting`. -/
  | ErrCanNotRunIfNotBuiltinTesting
  deriving DecidableEq, Repr

/-- The native test handle (`*testing.T`): the host decides, from the name a sub-test is
registered under, whether it runs the function of that sub-test. -/
structure NativeTest where
  /-- Whether `Run(name, f)` runs `f`. -/
  runs : String → Bool

/-- The context `t testRunner` handed to `RunTests`, as the capabilities the function asks of it:
whether the type assertion `t.(helper)` succeeds, and the value of `internal.GetTest(t)`
(`none` is `nil`). -/
structure TestRunner where
  /-- Whether `t` has the method `Helper`. -/
  isHelper : Bool
  /-- The value of `internal.GetTest(t)`. -/
  getTest : Option NativeTest

/-- The calls that a run of `RunTests` makes, on the host and on `testFunc`. -/
inductive Event (α : Type) where
  /-- The call `test.Helper()` on the context handed to `RunTests`. -/
  | helper
  /-- The call `t.Error(e)` on the context handed to `RunTests`. -/
  | error (e : HostError)
  /-- The call `test.Run(name, f)`: a sub-test registered under `name`. -/
  | run (name : String)
  /-- The call `t.Helper()` inside a sub-test. -/
  | subHelper
  /-- The call `testFunc(t, index, value)` inside a sub-test. -/
  | call (index : Nat) (value : α)
  /-- The end of a sub-test, with whether it passed. -/
  | done (passed : Bool)
  deriving DecidableEq, Repr

/-- The loop `for i, str := range testSet { test.Run(str, func(t) { t.Helper(); testFunc(t, i, str) }) }`
of `FuzzInputStringRunTests`; `testFunc i str` is whether the sub-test passes. -/
def FuzzInputStringRunTests.loop (test : NativeTest) (testFunc : Nat → String → Bool) :
    Nat → List String → List (Event String)
  | _, [] => []
  | i, str :: rest =>
    (Event.run str ::
      (if test.runs str then [Event.subHelper, Event.call i str, Event.done (testFunc i str)]
       else []))
      ++ FuzzInputStringRunTests.loop test testFunc (i + 1) rest

/-- The function `FuzzInputStringRunTests(t, testSet, testFunc)`, as the calls it makes. -/
def FuzzInputStringRunTests (t : TestRunner) (testSet : List String)
    (testFunc : Nat → String → Bool) : List (Event String) :=
  (if t.isHelper then [Event.helper] else []) ++
    match t.getTest with
    | none => [Event.error HostError.ErrCanNotRunIfNotBuiltinTesting]
    | some test => FuzzInputStringRunTests.loop test testFunc 0 testSet

/-- The call `fmt.Sprint(v)` on a boolean. -/
def sprintBool (v : Bool) : String := if v then "true" else "false"

/-- The loop `for i, v := range testSet { test.Run(fmt.Sprint(v), func(t) { t.Helper(); testFunc(t, i, v) }) }`
of `FuzzInputBoolRunTests`. -/
def FuzzInputBoolRunTests.loop (test : NativeTest) (testFunc : Nat → Bool → Bool) :
    Nat → List Bool → List (Event Bool)
  | _, [] => []
  | i, v :: rest =>
    (Event.run (sprintBool v) ::
      (if test.runs (sprintBool v) then
        [Event.subHelper, Event.call i v, Event.done (testFunc i v)]
       else []))
      ++ FuzzInputBoolRunTests.loop test testFunc (i + 1) rest

/-- The function `FuzzInputBoolRunTests(t, testSet, testFunc)`, as the calls it makes. -/
def FuzzInputBoolRunTests (t : TestRunner) (testSet : List Bool)
    (testFunc : Nat → Bool → Bool) : List (Event Bool) :=
  (if t.isHelper then [Event.helper] else []) ++
    match t.getTest with
    | none => [Event.error HostError.ErrCanNotRunIfNotBuiltinTesting]
    | some test => FuzzInputBoolRunTests.loop test testFunc 0 testSet

/-- The characters of `[a-zA-Z0-9]`. -/
def isAlphanumeric (c : Char) : Bool :=
  (decide ('a' ≤ c) && decide (c ≤ 'z')) || (decide ('A' ≤ c) && decide (c ≤ 'Z'))
    || (decide ('0' ≤ c) && decide (c ≤ '9'))

/-- A source of outcomes for the examples: the `k`-th raw outcome is `7 * k + 3`. -/
def exampleSource : RandSource := { outcomes := fun k => 7 * k + 3, drawn := 0 }

/-! ## Reading a run of `RunTests` -/

/-- The names under which a run registered its sub-tests (its `test.Run` calls), in order. -/
def registeredNames {α : Type} : List (Event α) → List String
  | [] => []
  | Event.run name :: rest => name :: registeredNames rest
  | Event.helper :: rest => registeredNames rest
  | Event.error _ :: rest => registeredNames rest
  | Event.subHelper :: rest => registeredNames rest
  | Event.call _ _ :: rest => registeredNames rest
  | Event.done _ :: rest => registeredNames rest

/-- The arguments `(index, value)` of the calls of `testFunc` in a run, in order. -/
def invocations {α : Type} : List (Event α) → List (Nat × α)
  | [] => []
  | Event.call i v :: rest => (i, v) :: invocations rest
  | Event.helper :: rest => invocations rest
  | Event.error _ :: rest => invocations rest
  | Event.run _ :: rest => invocations rest
  | Event.subHelper :: rest => invocations rest
  | Event.done _ :: rest => invocations rest

/-- A run without the outcomes of its sub-tests: what was called, in order. -/
def withoutOutcomes {α : Type} : List (Event α) → List (Event α)
  | [] => []
  | Event.done _ :: rest => withoutOutcomes rest
  | Event.helper :: rest => Event.helper :: withoutOutcomes rest
  | Event.error e :: rest => Event.error e :: withoutOutcomes rest
  | Event.run name :: rest => Event.run name :: withoutOutcomes rest
  | Event.subHelper :: rest => Event.subHelper :: withoutOutcomes rest
  | Event.call i v :: rest => Event.call i v :: withoutOutcomes rest

/-- A host that runs every sub-test registered with it, whatever its name. -/
def runsAll : NativeTest := { runs := fun _ => true }

/-! ## Slices in a store of backing arrays

The functions above take a slice as the list of its elements.  To speak of the storage that two
slices share, the transforms are given a second time over slice headers and a store of backing
arrays; the theorems relate the two embeddings. -/

/-- A slice header: the backing array it points into (its index in the store), the offset of its
first element in that array, its length and its capacity. -/
structure Slice where
  /-- The index of the backing array in the store. -/
  arr : Nat
  /-- The offset of the first element in the backing array. -/
  off : Nat
  /-- The value of `len(s)`. -/
  len : Nat
  /-- The value of `cap(s)`. -/
  cap : Nat
  deriving DecidableEq, Repr

/-- The store: the backing arrays allocated so far, a new one at the end. -/
abbrev Store (α : Type) := List (List α)

/-- The backing array of index `k`. -/
def Store.array {α : Type} (st : Store α) (k : Nat) : List α := st.getD k []

/-- The elements of a slice, read through its header. -/
def Store.elems {α : Type} (st : Store α) (s : Slice) : List α :=
  ((st.array s.arr).drop s.off).take s.len

/-- The assignment `s[i] = v`: it writes into the backing array of `s`. -/
def Store.assign {α : Type} (st : Store α) (s : Slice) (i : Nat) (v : α) :
    Except GoPanic (Store α) :=
  if i < s.len then .ok (st.set s.arr ((st.array s.arr).set (s.off + i) v))
  else .error .indexOutOfRange

/-- A slice header that is valid in a store: its length is within its capacity, and its capacity
within its backing array (a slice of capacity 0, such as nil, needs no array). -/
def Store.holds {α : Type} (st : Store α) (s : Slice) : Prop :=
  s.len ≤ s.cap ∧ (s.cap = 0 ∨ (s.arr < st.length ∧ s.off + s.cap ≤ (st.array s.arr).length))

instance {α : Type} (st : Store α) (s : Slice) : Decidable (st.holds s) := by
  unfold Store.holds
  infer_instance

/-- Two slices share storage when a place of one backing array is within the capacity of
both. -/
def Slice.sharesStorage (a b : Slice) : Prop :=
  a.arr = b.arr ∧ 0 < a.cap ∧ 0 < b.cap ∧ a.off < b.off + b.cap ∧ b.off < a.off + a.cap

instance (a b : Slice) : Decidable (a.sharesStorage b) := by
  unfold Slice.sharesStorage
  infer_instance

/-- The nil slice, the initial value of a named slice result. -/
def nilSlice : Slice := { arr := 0, off := 0, len := 0, cap := 0 }

/-- The call `append(s, v)`: when the capacity has room, `v` is written after the last element
in the backing array of `s`; otherwise a new array is allocated, of the capacity
`growCap (cap(s))` that the runtime picks (at least `len(s) + 1`), the elements of `s` and `v`
are copied into it, and the rest of it holds the zero value. -/
def Store.append {α : Type} (growCap : Nat → Nat) (zero : α) (st : Store α) (s : Slice) (v : α) :
    Slice × Store α :=
  if s.len < s.cap then
    ({ s with len := s.len + 1 }, st.set s.arr ((st.array s.arr).set (s.off + s.len) v))
  else
    ({ arr := st.length, off := 0, len := s.len + 1, cap := max (growCap s.cap) (s.len + 1) },
      st ++ [st.elems s ++ [v] ++
        List.replicate (max (growCap s.cap) (s.len + 1) - (s.len + 1)) zero])

/-- The loop `for i, str := range inputSlice { ret = append(ret, modifier(i, str)) }` of the two
`Modify` functions, over the store: `n` is the number of iterations left (`len(inputSlice)` is
read once, on entry), `i` the index; the element `inputSlice[i]` is read from the store at the
iteration. -/
def modifyStoredLoop {α : Type} (growCap : Nat → Nat) (zero : α) (modifier : Nat → α → α)
    (inputSlice : Slice) : Nat → Nat → Slice → Store α → Except GoPanic (Slice × Store α)
  | 0, _, ret, st => .ok (ret, st)
  | n + 1, i, ret, st =>
    match (st.elems inputSlice)[i]? with
    | none => .error .indexOutOfRange
    | some str =>
      modifyStoredLoop growCap zero modifier inputSlice n (i + 1)
        (Store.append growCap zero st ret (modifier i str)).1
        (Store.append growCap zero st ret (modifier i str)).2

/-- The function `FuzzInputStringModify` over the store: `ret` starts as the nil slice. -/
def FuzzInputStringModifyStored (growCap : Nat → Nat) (st : Store String) (inputSlice : Slice)
    (modifier : Nat → String → String) : Except GoPanic (Slice × Store String) :=
  modifyStoredLoop growCap "" modifier inputSlice inputSlice.len 0 nilSlice st

/-- The function `FuzzInputBoolModify` over the store: `floats` starts as the nil slice. -/
def FuzzInputBoolModifyStored (growCap : Nat → Nat) (st : Store Bool) (inputSlice : Slice)
    (modifier : Nat → Bool → Bool) : Except GoPanic (Slice × Store Bool) :=
  modifyStoredLoop growCap false modifier inputSlice inputSlice.len 0 nilSlice st

/-- The function `FuzzInputStringLimit` over the store: `return testSet` gives back the header
it was given, `[]string{}` is a new slice of length and capacity 0, and `testSet[:max]` is the
header of `testSet` with the length `max`, in the same backing array; the slice expression
panics unless `0 <= max <= cap(testSet)`. -/
def FuzzInputStringLimitStored (st : Store String) (testSet : Slice) (max : Int) :
    Except GoPanic (Slice × Store String) :=
  if (testSet.len : Int) ≤ max then
    .ok (testSet, st)
  else if max ≤ 0 then
    .ok ({ arr := st.length, off := 0, len := 0, cap := 0 }, st ++ [[]])
  else if 0 ≤ max ∧ max ≤ (testSet.cap : Int) then
    .ok ({ testSet with len := max.toNat }, st)
  else
    .error .sliceBoundsOutOfRange

/-- A store for the examples: one backing array, of two strings. -/
def exampleStore : Store String := [["a", "b"]]

/-- A slice for the examples: the whole of the one array of `exampleStore`. -/
def exampleSlice : Slice := { arr := 0, off := 0, len := 2, cap := 2 }

/-- The store `st` keeps the store `st0`: every backing array of `st0` is in `st`, at its index,
with its contents. -/
def Store.keeps {α : Type} (st0 st : Store α) : Prop :=
  st0.length ≤ st.length ∧ ∀ k, k < st0.length → st.array k = st0.array k

/-- A slice header valid in `st` whose backing array, if it has one, was allocated after the
store `st0`. -/
def Store.freshIn {α : Type} (st0 st : Store α) (s : Slice) : Prop :=
  s.len ≤ s.cap ∧
    (s.cap = 0 ∨
      (st0.length ≤ s.arr ∧ s.arr < st.length ∧ s.off + s.cap ≤ (st.array s.arr).length))

/-! ## The modifiers -/

theorem FuzzInputStringModify_loop_eq (f : Nat → String → String) (l : List String) :
    ∀ (i : Nat) (ret : List String),
      FuzzInputStringModify.loop f i l ret = ret ++ (l.enumFrom i).map (fun p => f p.1 p.2) := by
  induction l with
  | nil => intro i ret; simp [FuzzInputStringModify.loop]
  | cons a rest ih => intro i ret; simp [FuzzInputStringModify.loop, ih]

theorem FuzzInputBoolModify_loop_eq (f : Nat → Bool → Bool) (l : List Bool) :
    ∀ (i : Nat) (ret : List Bool),
      FuzzInputBoolModify.loop f i l ret = ret ++ (l.enumFrom i).map (fun p => f p.1 p.2) := by
  induction l with
  | nil => intro i ret; simp [FuzzInputBoolModify.loop]
  | cons a rest ih => intro i ret; simp [FuzzInputBoolModify.loop, ih]

theorem FuzzInputStringModify_eq (S : List String) (f : Nat → String → String) :
    FuzzInputStringModify S f = S.enum.map (fun p => f p.1 p.2) := by
  simp [FuzzInputStringModify, FuzzInputStringModify_loop_eq, List.enum]

theorem FuzzInputBoolModify_eq (S : List Bool) (f : Nat → Bool → Bool) :
    FuzzInputBoolModify S f = S.enum.map (fun p => f p.1 p.2) := by
  simp [FuzzInputBoolModify, FuzzInputBoolModify_loop_eq, List.enum]

/-- C1: for every input set `S` and modifier `f`, `FuzzInputStringModify(S, f)` and
`FuzzInputBoolModify(S, f)` have the length of `S`, and their element at every index `i` of `S`
is `f(i, S[i])`: nothing is skipped, reordered or merged, whatever `f` returns. -/
theorem C1_modify_pointwise (S : List String) (f : Nat → String → String)
    (B : List Bool) (g : Nat → Bool → Bool) :
    ((FuzzInputStringModify S f).length = S.length ∧
      ∀ i : Fin S.length, (FuzzInputStringModify S f)[i.val]? = some (f i.val (S.get i))) ∧
    ((FuzzInputBoolModify B g).length = B.length ∧
      ∀ i : Fin B.length, (FuzzInputBoolModify B g)[i.val]? = some (g i.val (B.get i))) := by
  refine ⟨⟨?_, ?_⟩, ?_, ?_⟩
  · simp [FuzzInputStringModify_eq]
  · intro i
    simp [FuzzInputStringModify_eq, List.enum, List.getElem?_enumFrom, List.getElem?_eq_getElem i.isLt]
  · simp [FuzzInputBoolModify_eq]
  · intro i
    simp [FuzzInputBoolModify_eq, List.enum, List.getElem?_enumFrom, List.getElem?_eq_getElem i.isLt]

/-! ## The limiter -/

/-- C2: `FuzzInputStringLimit(S, max)` is `S` when `max >= len(S)`, is empty when `max <= 0`, and
otherwise (`0 < max < len(S)`) has exactly `max` elements, the first `max` elements of `S`. -/
theorem C2_limit_cases (S : List String) (max : Int) :
    ((S.length : Int) ≤ max → FuzzInputStringLimit S max = .ok S) ∧
    (max ≤ 0 → FuzzInputStringLimit S max = .ok []) ∧
    (0 < max → max < (S.length : Int) →
      FuzzInputStringLimit S max = .ok (S.take max.toNat) ∧
        ((S.take max.toNat).length : Int) = max) := by
  refine ⟨?_, ?_, ?_⟩
  · intro h
    simp [FuzzInputStringLimit, h]
  · intro h
    by_cases hl : (S.length : Int) ≤ max
    · have h0 : S.length = 0 := by omega
      have hS : S = [] := List.length_eq_zero.mp h0
      have hm : max = 0 := by omega
      subst hS
      subst hm
      simp [FuzzInputStringLimit]
    · simp [FuzzInputStringLimit, hl, h]
  · intro h0 hlt
    have h1 : ¬ (S.length : Int) ≤ max := by omega
    have h2 : ¬ max ≤ 0 := by omega
    refine ⟨?_, ?_⟩
    · simp [FuzzInputStringLimit, sliceTo, h1, h2]
      omega
    · simp only [List.length_take]
      omega

/-- C2 at concrete inputs: one set for each of the three cases. -/
theorem C2_limit_cases_witness :
    FuzzInputStringLimit ["a", "b"] 5 = .ok ["a", "b"] ∧
    FuzzInputStringLimit ["a", "b"] (-1) = .ok [] ∧
    FuzzInputStringLimit ["a", "b", "c"] 2 = .ok ["a", "b"] :=
  ⟨(C2_limit_cases ["a", "b"] 5).1 (by decide),
   (C2_limit_cases ["a", "b"] (-1)).2.1 (by decide),
   ((C2_limit_cases ["a", "b", "c"] 2).2.2 (by decide) (by decide)).1⟩

/-! ## The random generator -/

theorem letters_length : letters.length = 62 := by decide

theorem letters_alphanumeric : ∀ c ∈ letters, isAlphanumeric c = true := by decide

theorem letters_nodup : letters.Nodup := by decide

theorem Intn_letters (src : RandSource) :
    ∃ k : Int, src.Intn (letters.length : Int) = .ok (k, { src with drawn := src.drawn + 1 }) ∧
      0 ≤ k ∧ k < 62 := by
  refine ⟨(src.outcomes src.drawn : Int) % 62, ?_, ?_, ?_⟩
  · simp [RandSource.Intn, letters_length]
  · omega
  · omega

theorem indexRunes_letters (k : Int) (h0 : 0 ≤ k) (h1 : k < 62) :
    ∃ c, indexRunes letters k = .ok c ∧ c ∈ letters := by
  have hk : k.toNat < letters.length := by rw [letters_length]; omega
  refine ⟨letters.get ⟨k.toNat, hk⟩, ?_, List.get_mem _ _ _⟩
  have hn : ¬ k < 0 := by omega
  simp [indexRunes, hn, List.getElem?_eq_getElem hk]

/-- The inner loop fills the `n` places from `i` on with letters, leaves the places before `i` as
they are, and makes `n` draws. -/
theorem FuzzInputStringGenerateRandom_fill_spec :
    ∀ (n i : Nat) (str : List Char) (src : RandSource), i + n ≤ str.length →
      ∃ str1 : List Char,
        FuzzInputStringGenerateRandom.fill n i str src
            = .ok (str1, { src with drawn := src.drawn + n }) ∧
          str1.length = str.length ∧
          (∀ j, i ≤ j → j < i + n → ∃ c ∈ letters, str1[j]? = some c) ∧
          (∀ j, j < i → str1[j]? = str[j]?) := by
  intro n
  induction n with
  | zero =>
    intro i str src _
    refine ⟨str, ?_, rfl, ?_, ?_⟩
    · simp [FuzzInputStringGenerateRandom.fill]
    · intro j h1 h2; omega
    · intro j _; rfl
  | succ n ih =>
    intro i str src hlen
    obtain ⟨k, hk, hk0, hk1⟩ := Intn_letters src
    obtain ⟨c, hc, hcmem⟩ := indexRunes_letters k hk0 hk1
    have hi : i < str.length := by omega
    obtain ⟨str1, hfill, hl, hin, hbefore⟩ :=
      ih (i + 1) (str.set i c) { src with drawn := src.drawn + 1 }
        (by simp only [List.length_set]; omega)
    refine ⟨str1, ?_, ?_, ?_, ?_⟩
    · simp only [FuzzInputStringGenerateRandom.fill, hk, hc, assignRunes, hi, if_true, hfill]
      simp only [Nat.add_assoc, Nat.add_comm 1 n]
    · simpa using hl
    · intro j h1 h2
      by_cases hj : j = i
      · subst hj
        refine ⟨c, hcmem, ?_⟩
        rw [hbefore j (by omega)]
        simp [List.getElem?_set, hi]
      · exact hin j (by omega) (by omega)
    · intro j hj
      rw [hbefore j (by omega)]
      simp only [List.getElem?_set]
      have : ¬ i = j := by omega
      simp [this]

/-- The outer loop, for a length that is not negative and that `make` can allocate: `n` more
strings are appended to `result`, each of `length` letters, and `n * length` draws are made. -/
theorem FuzzInputStringGenerateRandom_loop_spec (length : Int) (hlen : 0 ≤ length)
    (hfit : 4 * length ≤ maxAlloc) :
    ∀ (n : Nat) (result : List String) (src : RandSource),
      ∃ res : List String,
        FuzzInputStringGenerateRandom.loop length n result src
            = .ok (result ++ res, { src with drawn := src.drawn + n * length.toNat }) ∧
          res.length = n ∧
          ∀ s ∈ res, s.length = length.toNat ∧ ∀ c ∈ s.data, c ∈ letters := by
  intro n
  induction n with
  | zero =>
    intro result src
    exact ⟨[], by simp [FuzzInputStringGenerateRandom.loop], rfl, by simp⟩
  | succ n ih =>
    intro result src
    have hm : makeRunes length = .ok (List.replicate length.toNat (Char.ofNat 0)) := by
      have : ¬ (length < 0 ∨ maxAlloc < 4 * length) := by omega
      simp only [makeRunes, this, if_false]
    obtain ⟨str1, hfill, hl, hin, -⟩ :=
      FuzzInputStringGenerateRandom_fill_spec (List.replicate length.toNat (Char.ofNat 0)).length 0
        (List.replicate length.toNat (Char.ofNat 0)) src (by omega)
    obtain ⟨res, hloop, hrl, hres⟩ := ih (result ++ [String.mk str1])
      { src with drawn := src.drawn + (List.replicate length.toNat (Char.ofNat 0)).length }
    have hl1 : str1.length = length.toNat := by simpa using hl
    refine ⟨String.mk str1 :: res, ?_, by simp [hrl], ?_⟩
    · simp only [FuzzInputStringGenerateRandom.loop, hm, hfill, hloop]
      simp only [List.length_replicate, List.append_assoc, List.singleton_append, Nat.add_assoc,
        Nat.succ_mul, Nat.add_comm (n * length.toNat)]
    · intro s hs
      rcases List.mem_cons.mp hs with h | h
      · subst h
        refine ⟨by simpa [String.length] using hl1, ?_⟩
        intro c hc
        obtain ⟨j, hj, hjc⟩ := List.getElem_of_mem hc
        have hj1 : j < str1.length := hj
        obtain ⟨c1, hc1, hget⟩ :=
          hin j (by omega) (by simp only [List.length_replicate]; omega)
        rw [List.getElem?_eq_getElem hj] at hget
        have : c = c1 := by
          rw [← hjc]; exact Option.some.inj hget
        rw [this]; exact hc1
      · exact hres s h

/-- The generator, for a length that is not negative and that `make` can allocate: `count`
strings (none when `count` is negative), each of `length` letters. -/
theorem FuzzInputStringGenerateRandom_spec (count length : Int) (hlen : 0 ≤ length)
    (hfit : 4 * length ≤ maxAlloc) (src : RandSource) :
    ∃ res : List String,
      FuzzInputStringGenerateRandom count length src
          = .ok (res, { src with drawn := src.drawn + count.toNat * length.toNat }) ∧
        res.length = count.toNat ∧
        ∀ s ∈ res, s.length = length.toNat ∧ ∀ c ∈ s.data, c ∈ letters := by
  obtain ⟨res, h, hl, hs⟩ :=
    FuzzInputStringGenerateRandom_loop_spec length hlen hfit count.toNat [] src
  exact ⟨res, by simpa [FuzzInputStringGenerateRandom] using h, hl, hs⟩

/-- The generator, for a count that is not positive: no string, no draw, whatever the length. -/
theorem FuzzInputStringGenerateRandom_nonpos (count length : Int) (hcount : count ≤ 0)
    (src : RandSource) :
    FuzzInputStringGenerateRandom count length src = .ok ([], src) := by
  have h : count.toNat = 0 := by omega
  simp [FuzzInputStringGenerateRandom, h, FuzzInputStringGenerateRandom.loop]

/-- C5: for every `count <= 0` and every length, negative ones too,
`FuzzInputStringGenerateRandom` returns the empty set and leaves the random source as it was,
no draw made. -/
theorem C5_generateRandom_no_count (count n : Int) (src : RandSource) (hcount : count ≤ 0) :
    FuzzInputStringGenerateRandom count n src = .ok ([], src) :=
  FuzzInputStringGenerateRandom_nonpos count n hcount src

/-- C5 at a concrete input: the count -3 with the length -5. -/
theorem C5_generateRandom_no_count_witness :
    FuzzInputStringGenerateRandom (-3) (-5) exampleSource = .ok ([], exampleSource) :=
  C5_generateRandom_no_count (-3) (-5) exampleSource (by decide)

/-! ## The catalogs -/

/-- C6: `FuzzInputStringNumeric` has `2 * k` elements for the `k = 10` positive numbers; its
first `k` elements are that list, in order, and its element `k + i` is `"-"` followed by its
element `i`, for every `i < k`. -/
theorem C6_numeric_layout :
    positiveNumbers.length = 10 ∧
    FuzzInputStringNumeric.length = 2 * positiveNumbers.length ∧
    FuzzInputStringNumeric.take 10 =
      ["0", "1", "2", "3", "100", "1.1", "1337", "13.37", "0.000000000001",
        "9223372036854775807"] ∧
    ∀ i : Fin 10, FuzzInputStringNumeric[10 + i.val]? =
      (FuzzInputStringNumeric[i.val]?).map (fun value => "-" ++ value) := by
  decide

/-! ## The long strings and the full set -/

/-- One call `FuzzInputStringGenerateRandom(1, length)`, for a length that is not negative and
that `make` can allocate: one string of `length` letters. -/
theorem FuzzInputStringGenerateRandom_one (length : Int) (hlen : 0 ≤ length)
    (hfit : 4 * length ≤ maxAlloc) (src : RandSource) :
    ∃ (s : String) (src1 : RandSource),
      FuzzInputStringGenerateRandom 1 length src = .ok ([s], src1) ∧
        s.length = length.toNat ∧ ∀ c ∈ s.data, c ∈ letters := by
  obtain ⟨res, h, hl, hs⟩ := FuzzInputStringGenerateRandom_spec 1 length hlen hfit src
  have h1 : res.length = 1 := by simpa using hl
  obtain ⟨s, rfl⟩ := List.length_eq_one.mp h1
  exact ⟨s, _, h, (hs s (by simp)).1, (hs s (by simp)).2⟩

/-- The five strings of `FuzzInputStringLong`, with their lengths. -/
theorem FuzzInputStringLong_spec (src : RandSource) :
    ∃ (s1 s2 s3 s4 s5 : String) (src1 : RandSource),
      FuzzInputStringLong src = .ok ([s1, s2, s3, s4, s5], src1) ∧
        (s1.length = 25 ∧ s2.length = 50 ∧ s3.length = 100 ∧ s4.length = 1000 ∧
          s5.length = 100000) ∧
        ∀ s ∈ [s1, s2, s3, s4, s5], ∀ c ∈ s.data, c ∈ letters := by
  -- the five lengths are named before the calls are looked at, so that no step of the proof
  -- runs the generator on a literal length
  obtain ⟨a, ha, ha0, ha1⟩ : ∃ a : Int, a = 25 ∧ 0 ≤ a ∧ 4 * a ≤ maxAlloc :=
    ⟨25, rfl, by decide, by decide⟩
  obtain ⟨b, hb, hb0, hb1⟩ : ∃ b : Int, b = 50 ∧ 0 ≤ b ∧ 4 * b ≤ maxAlloc :=
    ⟨50, rfl, by decide, by decide⟩
  obtain ⟨c, hc, hc0, hc1⟩ : ∃ c : Int, c = 100 ∧ 0 ≤ c ∧ 4 * c ≤ maxAlloc :=
    ⟨100, rfl, by decide, by decide⟩
  obtain ⟨d, hd, hd0, hd1⟩ : ∃ d : Int, d = 1000 ∧ 0 ≤ d ∧ 4 * d ≤ maxAlloc :=
    ⟨1000, rfl, by decide, by decide⟩
  obtain ⟨e, he, he0, he1⟩ : ∃ e : Int, e = 100000 ∧ 0 ≤ e ∧ 4 * e ≤ maxAlloc :=
    ⟨100000, rfl, by decide, by decide⟩
  unfold FuzzInputStringLong
  rw [← ha, ← hb, ← hc, ← hd, ← he]
  obtain ⟨s1, q1, h1, l1, c1⟩ := FuzzInputStringGenerateRandom_one a ha0 ha1 src
  obtain ⟨s2, q2, h2, l2, c2⟩ := FuzzInputStringGenerateRandom_one b hb0 hb1 q1
  obtain ⟨s3, q3, h3, l3, c3⟩ := FuzzInputStringGenerateRandom_one c hc0 hc1 q2
  obtain ⟨s4, q4, h4, l4, c4⟩ := FuzzInputStringGenerateRandom_one d hd0 hd1 q3
  obtain ⟨s5, q5, h5, l5, c5⟩ := FuzzInputStringGenerateRandom_one e he0 he1 q4
  rw [ha] at l1
  rw [hb] at l2
  rw [hc] at l3
  rw [hd] at l4
  rw [he] at l5
  refine ⟨s1, s2, s3, s4, s5, q5, ?_, ⟨l1, l2, l3, l4, l5⟩, ?_⟩
  · simp only [h1, h2, h3, h4, h5, List.nil_append, List.singleton_append, List.cons_append]
  · intro s hs
    simp only [List.mem_cons, List.mem_singleton, List.not_mem_nil, or_false] at hs
    rcases hs with h | h | h | h | h <;> subst h <;> assumption

/-- The ten calls of the loop of `FuzzInputStringFull`, from the index `i` on: `n` strings are
appended to `ret`, the `j`-th the one string of a call `FuzzInputStringGenerateRandom(1, i + j)`,
of `i + j` letters. -/
theorem FuzzInputStringFull_loop_spec :
    ∀ (n : Nat) (i : Int) (ret : List String) (src : RandSource), 0 ≤ i →
      4 * (i + (n : Int)) ≤ maxAlloc →
      ∃ (rs : List String) (src1 : RandSource),
        FuzzInputStringFull.loop n i ret src = .ok (ret ++ rs, src1) ∧
          rs.length = n ∧
          ∀ j : Nat, j < n → ∃ s : String,
            rs[j]? = some s ∧ (s.length : Int) = i + j ∧ (∀ c ∈ s.data, c ∈ letters) ∧
              ∃ srcA srcB : RandSource,
                FuzzInputStringGenerateRandom 1 (i + j) srcA = .ok ([s], srcB) := by
  intro n
  induction n with
  | zero =>
    intro i ret src _ _
    exact ⟨[], src, by simp [FuzzInputStringFull.loop], rfl, fun j hj => by omega⟩
  | succ n ih =>
    intro i ret src hi hfit
    obtain ⟨s, q, hs, hl, hc⟩ :=
      FuzzInputStringGenerateRandom_one i hi (by push_cast at hfit; omega) src
    obtain ⟨rs, src1, hloop, hrl, hrs⟩ :=
      ih (i + 1) (ret ++ [s]) q (by omega) (by push_cast at hfit; omega)
    refine ⟨s :: rs, src1, ?_, by simp [hrl], ?_⟩
    · simp only [FuzzInputStringFull.loop, hs, hloop, List.append_assoc, List.singleton_append]
    · intro j hj
      cases j with
      | zero =>
        refine ⟨s, by simp, by simp only [hl]; omega, hc, src, q, ?_⟩
        simpa using hs
      | succ j =>
        obtain ⟨t, ht, htl, htc, srcA, srcB, hgen⟩ := hrs j (by omega)
        refine ⟨t, by simpa using ht, by rw [htl]; push_cast; ring, htc, srcA, srcB, ?_⟩
        have he : i + ((j + 1 : Nat) : Int) = i + 1 + (j : Int) := by push_cast; ring
        rw [he]; exact hgen

/-- The layout of `FuzzInputStringFull`: the five fixed catalogs, then the result of
`FuzzInputStringLong`, then ten random strings of the lengths 0 to 9. -/
theorem FuzzInputStringFull_spec (src : RandSource) :
    ∃ (long rnd : List String) (src1 src2 : RandSource),
      FuzzInputStringLong src = .ok (long, src1) ∧
        FuzzInputStringFull src
          = .ok (FuzzInputStringUsernames ++ (FuzzInputStringHtmlTags ++
              (FuzzInputStringEmailAddresses ++ (FuzzInputStringEmpty ++
                (FuzzInputStringNumeric ++ (long ++ rnd))))), src2) ∧
        long.length = 5 ∧ rnd.length = 10 ∧
        ∀ j : Nat, j < 10 → ∃ s : String,
          rnd[j]? = some s ∧ s.length = j ∧ (∀ c ∈ s.data, c ∈ letters) ∧
            ∃ srcA srcB : RandSource,
              FuzzInputStringGenerateRandom 1 (j : Int) srcA = .ok ([s], srcB) := by
  obtain ⟨s1, s2, s3, s4, s5, src1, hlong, -, -⟩ := FuzzInputStringLong_spec src
  obtain ⟨rnd, src2, hloop, hrl, hrnd⟩ :=
    FuzzInputStringFull_loop_spec 10 0
      (FuzzInputStringUsernames ++ (FuzzInputStringHtmlTags ++
        (FuzzInputStringEmailAddresses ++ (FuzzInputStringEmpty ++
          (FuzzInputStringNumeric ++ [s1, s2, s3, s4, s5]))))) src1 (le_refl 0) (by decide)
  refine ⟨[s1, s2, s3, s4, s5], rnd, src1, src2, hlong, ?_, rfl, hrl, ?_⟩
  · simp only [FuzzInputStringFull, hlong, List.nil_append, List.append_assoc, hloop]
  · intro j hj
    obtain ⟨s, hs, hl, hc, srcA, srcB, hgen⟩ := hrnd j hj
    refine ⟨s, hs, by omega, hc, srcA, srcB, ?_⟩
    simpa using hgen

/-- The part of `a ++ (b ++ c)` after the first `a.length` elements starts with `b`. -/
theorem take_drop_append {α : Type} (a b c : List α) (n m : Nat) (ha : a.length = n)
    (hb : b.length = m) : ((a ++ (b ++ c)).drop n).take m = b := by
  rw [List.drop_left' ha, List.take_left' hb]

/-- An index of `a ++ b` past the end of `a` reads `b`. -/
theorem getElem?_append_after {α : Type} (a b : List α) (n : Nat) (h : a.length ≤ n) :
    (a ++ b)[n]? = b[n - a.length]? :=
  List.getElem?_append_right h

/-- C7: for every state of the random source, `FuzzInputStringFull` returns 89 elements:
Usernames at the indices 0-9, HtmlTags at 10-14, EmailAddresses at 15-52, Empty at 53 and Numeric
at 54-73, each catalog in its own order, then the five elements of `FuzzInputStringLong` at
74-78, then ten elements at 79-88, each the one string of a call of the random generator. -/
theorem C7_full_layout (src : RandSource) :
    ∃ (ret long : List String) (src1 src2 : RandSource),
      FuzzInputStringFull src = .ok (ret, src2) ∧
        ret.length = 89 ∧
        ret.take 74 = FuzzInputStringUsernames ++ FuzzInputStringHtmlTags ++
          FuzzInputStringEmailAddresses ++ FuzzInputStringEmpty ++ FuzzInputStringNumeric ∧
        ret.take 10 = FuzzInputStringUsernames ∧
        (ret.drop 10).take 5 = FuzzInputStringHtmlTags ∧
        (ret.drop 15).take 38 = FuzzInputStringEmailAddresses ∧
        (ret.drop 53).take 1 = FuzzInputStringEmpty ∧
        (ret.drop 54).take 20 = FuzzInputStringNumeric ∧
        FuzzInputStringLong src = .ok (long, src1) ∧ long.length = 5 ∧
        (ret.drop 74).take 5 = long ∧
        (ret.drop 79).length = 10 ∧
        ∀ j : Fin 10, ∃ (s : String) (srcA srcB : RandSource),
          ret[79 + j.val]? = some s ∧
            FuzzInputStringGenerateRandom 1 (j.val : Int) srcA = .ok ([s], srcB) := by
  obtain ⟨long, rnd, src1, src2, hlong, hfull, hl, hr, hrnd⟩ := FuzzInputStringFull_spec src
  have hU : FuzzInputStringUsernames.length = 10 := by decide
  have hH : FuzzInputStringHtmlTags.length = 5 := by decide
  have hE : FuzzInputStringEmailAddresses.length = 38 := by decide
  have hM : FuzzInputStringEmpty.length = 1 := by decide
  have hN : FuzzInputStringNumeric.length = 20 := by decide
  refine ⟨_, long, src1, src2, hfull, ?_, ?_, ?_, ?_, ?_, ?_, ?_, hlong, hl, ?_, ?_, ?_⟩
  · simp only [List.length_append, hU, hH, hE, hM, hN, hl, hr]
  · have h := take_drop_append [] (FuzzInputStringUsernames ++ FuzzInputStringHtmlTags ++
        FuzzInputStringEmailAddresses ++ FuzzInputStringEmpty ++ FuzzInputStringNumeric)
      (long ++ rnd) 0 74 rfl (by simp only [List.length_append, hU, hH, hE, hM, hN])
    simpa only [List.append_assoc, List.nil_append, List.drop_zero] using h
  · exact take_drop_append [] _ _ 0 10 rfl hU
  · exact take_drop_append _ _ _ 10 5 hU hH
  · have h := take_drop_append (FuzzInputStringUsernames ++ FuzzInputStringHtmlTags)
      FuzzInputStringEmailAddresses
      (FuzzInputStringEmpty ++ (FuzzInputStringNumeric ++ (long ++ rnd))) 15 38
      (by simp only [List.length_append, hU, hH]) hE
    simpa only [List.append_assoc] using h
  · have h := take_drop_append (FuzzInputStringUsernames ++ FuzzInputStringHtmlTags ++
        FuzzInputStringEmailAddresses) FuzzInputStringEmpty
      (FuzzInputStringNumeric ++ (long ++ rnd)) 53 1
      (by simp only [List.length_append, hU, hH, hE]) hM
    simpa only [List.append_assoc] using h
  · have h := take_drop_append (FuzzInputStringUsernames ++ FuzzInputStringHtmlTags ++
        FuzzInputStringEmailAddresses ++ FuzzInputStringEmpty) FuzzInputStringNumeric
      (long ++ rnd) 54 20
      (by simp only [List.length_append, hU, hH, hE, hM]) hN
    simpa only [List.append_assoc] using h
  · have h := take_drop_append (FuzzInputStringUsernames ++ FuzzInputStringHtmlTags ++
        FuzzInputStringEmailAddresses ++ FuzzInputStringEmpty ++ FuzzInputStringNumeric) long
      (rnd ++ []) 74 5
      (by simp only [List.length_append, hU, hH, hE, hM, hN]) hl
    simpa only [List.append_assoc, List.append_nil] using h
  · simp only [List.length_drop, List.length_append, hU, hH, hE, hM, hN, hl, hr]
  · intro j
    obtain ⟨s, hs, -, -, srcA, srcB, hgen⟩ := hrnd j.val j.isLt
    refine ⟨s, srcA, srcB, ?_, hgen⟩
    have h := getElem?_append_after (FuzzInputStringUsernames ++
      FuzzInputStringHtmlTags ++ FuzzInputStringEmailAddresses ++ FuzzInputStringEmpty ++
      FuzzInputStringNumeric ++ long) rnd (79 + j.val)
      (by simp only [List.length_append, hU, hH, hE, hM, hN, hl]; omega)
    simp only [List.length_append, hU, hH, hE, hM, hN, hl, List.append_assoc] at h
    rw [h, ← hs]
    congr 1
    omega

/-- C8: for every state of the random source, the last ten elements of `FuzzInputStringFull`
(the indices 79 to 88 of 89) have the lengths 0, 1, ..., 9 in that order, so the first of them is
the empty string, and each consists of characters of `[a-zA-Z0-9]` only. -/
theorem C8_full_random_tail (src : RandSource) :
    ∃ (ret : List String) (src1 : RandSource),
      FuzzInputStringFull src = .ok (ret, src1) ∧
        ret.length = 89 ∧
        (∀ j : Fin 10, ∃ s : String,
          ret[ret.length - 10 + j.val]? = some s ∧ s.length = j.val ∧
            ∀ c ∈ s.data, c ∈ letters ∧ isAlphanumeric c = true) ∧
        ret[79]? = some "" := by
  obtain ⟨long, rnd, src1, src2, -, hfull, hl, hr, hrnd⟩ := FuzzInputStringFull_spec src
  have hU : FuzzInputStringUsernames.length = 10 := by decide
  have hH : FuzzInputStringHtmlTags.length = 5 := by decide
  have hE : FuzzInputStringEmailAddresses.length = 38 := by decide
  have hM : FuzzInputStringEmpty.length = 1 := by decide
  have hN : FuzzInputStringNumeric.length = 20 := by decide
  have hget : ∀ j : Nat, (FuzzInputStringUsernames ++ (FuzzInputStringHtmlTags ++
      (FuzzInputStringEmailAddresses ++ (FuzzInputStringEmpty ++
        (FuzzInputStringNumeric ++ (long ++ rnd))))))[79 + j]? = rnd[j]? := by
    intro j
    have h := getElem?_append_after (FuzzInputStringUsernames ++
      FuzzInputStringHtmlTags ++ FuzzInputStringEmailAddresses ++ FuzzInputStringEmpty ++
      FuzzInputStringNumeric ++ long) rnd (79 + j)
      (by simp only [List.length_append, hU, hH, hE, hM, hN, hl]; omega)
    simp only [List.length_append, hU, hH, hE, hM, hN, hl, List.append_assoc] at h
    rw [h]
    congr 1
    omega
  have hlen : (FuzzInputStringUsernames ++ (FuzzInputStringHtmlTags ++
      (FuzzInputStringEmailAddresses ++ (FuzzInputStringEmpty ++
        (FuzzInputStringNumeric ++ (long ++ rnd)))))).length = 89 := by
    simp only [List.length_append, hU, hH, hE, hM, hN, hl, hr]
  refine ⟨_, src2, hfull, hlen, ?_, ?_⟩
  · intro j
    obtain ⟨s, hs, hsl, hc, -⟩ := hrnd j.val j.isLt
    refine ⟨s, ?_, hsl, fun c hmem => ⟨hc c hmem, letters_alphanumeric c (hc c hmem)⟩⟩
    rw [hlen, ← hs]
    exact hget j.val
  · obtain ⟨s, hs, hsl, -, -⟩ := hrnd 0 (by decide)
    have hd : s.data = [] := List.length_eq_zero.mp hsl
    have he : s = "" := String.ext hd
    rw [← he, ← hs]
    exact hget 0

/-- C9: for every state of the random source, `FuzzInputStringLong` returns exactly five
strings, of the lengths 25, 50, 100, 1000 and 100000 in that order, each of characters of
`[a-zA-Z0-9]` only. -/
theorem C9_long_lengths (src : RandSource) :
    ∃ (ret : List String) (src1 : RandSource),
      FuzzInputStringLong src = .ok (ret, src1) ∧
        ret.length = 5 ∧
        ret.map String.length = [25, 50, 100, 1000, 100000] ∧
        ∀ s ∈ ret, ∀ c ∈ s.data, c ∈ letters ∧ isAlphanumeric c = true := by
  obtain ⟨s1, s2, s3, s4, s5, src1, h, ⟨l1, l2, l3, l4, l5⟩, hc⟩ := FuzzInputStringLong_spec src
  refine ⟨[s1, s2, s3, s4, s5], src1, h, rfl, ?_, ?_⟩
  · simp only [List.map_cons, List.map_nil, l1, l2, l3, l4, l5]
  · intro s hs c hmem
    exact ⟨hc s hs c hmem, letters_alphanumeric c (hc s hs c hmem)⟩

/-! ## The dispatcher without a native test handle -/

/-- C10: when `internal.GetTest(t)` is `nil`, `FuzzInputStringRunTests` and
`FuzzInputBoolRunTests` report exactly one error through `t.Error`, register no sub-test and
never call `testFunc`, for every test set and test function. -/
theorem C10_runTests_without_native (t : TestRunner) (hnil : t.getTest = none)
    (S : List String) (f : Nat → String → Bool) (B : List Bool) (g : Nat → Bool → Bool) :
    (FuzzInputStringRunTests t S f
        = (if t.isHelper then [Event.helper] else [])
          ++ [Event.error HostError.ErrCanNotRunIfNotBuiltinTesting] ∧
      ((FuzzInputStringRunTests t S f).filter
          (fun ev => match ev with | Event.error _ => true | _ => false)).length = 1 ∧
      (∀ name, Event.run name ∉ FuzzInputStringRunTests t S f) ∧
      (∀ i v, Event.call i v ∉ FuzzInputStringRunTests t S f)) ∧
    (FuzzInputBoolRunTests t B g
        = (if t.isHelper then [Event.helper] else [])
          ++ [Event.error HostError.ErrCanNotRunIfNotBuiltinTesting] ∧
      ((FuzzInputBoolRunTests t B g).filter
          (fun ev => match ev with | Event.error _ => true | _ => false)).length = 1 ∧
      (∀ name, Event.run name ∉ FuzzInputBoolRunTests t B g) ∧
      (∀ i v, Event.call i v ∉ FuzzInputBoolRunTests t B g)) := by
  have hs : FuzzInputStringRunTests t S f
      = (if t.isHelper then [Event.helper] else [])
        ++ [Event.error HostError.ErrCanNotRunIfNotBuiltinTesting] := by
    simp only [FuzzInputStringRunTests, hnil]
  have hb : FuzzInputBoolRunTests t B g
      = (if t.isHelper then [Event.helper] else [])
        ++ [Event.error HostError.ErrCanNotRunIfNotBuiltinTesting] := by
    simp only [FuzzInputBoolRunTests, hnil]
  refine ⟨⟨hs, ?_, ?_, ?_⟩, ⟨hb, ?_, ?_, ?_⟩⟩
  · rw [hs]; cases t.isHelper <;> simp
  · intro name; rw [hs]; cases t.isHelper <;> simp
  · intro i v; rw [hs]; cases t.isHelper <;> simp
  · rw [hb]; cases t.isHelper <;> simp
  · intro name; rw [hb]; cases t.isHelper <;> simp
  · intro i v; rw [hb]; cases t.isHelper <;> simp

/-- C10 at a concrete input: a context with `Helper` and no native handle, a set of two strings
and the set `[true, false]`. -/
theorem C10_runTests_without_native_witness :
    FuzzInputStringRunTests { isHelper := true, getTest := none } ["a", "b"] (fun _ _ => true)
        = [Event.helper, Event.error HostError.ErrCanNotRunIfNotBuiltinTesting] ∧
    FuzzInputBoolRunTests { isHelper := true, getTest := none } FuzzInputBoolFull
        (fun _ v => v)
        = [Event.helper, Event.error HostError.ErrCanNotRunIfNotBuiltinTesting] :=
  ⟨(C10_runTests_without_native { isHelper := true, getTest := none } rfl ["a", "b"]
      (fun _ _ => true) FuzzInputBoolFull (fun _ v => v)).1.1,
   (C10_runTests_without_native { isHelper := true, getTest := none } rfl ["a", "b"]
      (fun _ _ => true) FuzzInputBoolFull (fun _ v => v)).2.1⟩

/-! ## The dispatcher with a native test handle -/

theorem registeredNames_append {α : Type} (a b : List (Event α)) :
    registeredNames (a ++ b) = registeredNames a ++ registeredNames b := by
  induction a with
  | nil => rfl
  | cons ev rest ih => cases ev <;> simp [registeredNames, ih]

theorem invocations_append {α : Type} (a b : List (Event α)) :
    invocations (a ++ b) = invocations a ++ invocations b := by
  induction a with
  | nil => rfl
  | cons ev rest ih => cases ev <;> simp [invocations, ih]

theorem withoutOutcomes_append {α : Type} (a b : List (Event α)) :
    withoutOutcomes (a ++ b) = withoutOutcomes a ++ withoutOutcomes b := by
  induction a with
  | nil => rfl
  | cons ev rest ih => cases ev <;> simp [withoutOutcomes, ih]

/-- The string loop registers one sub-test per element, under the element itself, whether or not
the host runs it. -/
theorem FuzzInputStringRunTests_loop_names (test : NativeTest) (f : Nat → String → Bool)
    (S : List String) :
    ∀ i : Nat, registeredNames (FuzzInputStringRunTests.loop test f i S) = S := by
  induction S with
  | nil => intro i; rfl
  | cons str rest ih =>
    intro i
    cases h : test.runs str <;>
      simp [FuzzInputStringRunTests.loop, h, registeredNames, ih]

/-- The string loop calls `testFunc` on the elements whose sub-test the host runs, with their
index. -/
theorem FuzzInputStringRunTests_loop_calls (test : NativeTest) (f : Nat → String → Bool)
    (S : List String) :
    ∀ i : Nat, invocations (FuzzInputStringRunTests.loop test f i S)
      = (S.enumFrom i).filter (fun p => test.runs p.2) := by
  induction S with
  | nil => intro i; rfl
  | cons str rest ih =>
    intro i
    cases h : test.runs str <;>
      simp [FuzzInputStringRunTests.loop, h, invocations, ih, List.filter_cons]

/-- The calls of the string loop, apart from the outcomes, do not depend on `testFunc`. -/
theorem FuzzInputStringRunTests_loop_outcomes (test : NativeTest) (f g : Nat → String → Bool)
    (S : List String) :
    ∀ i : Nat, withoutOutcomes (FuzzInputStringRunTests.loop test f i S)
      = withoutOutcomes (FuzzInputStringRunTests.loop test g i S) := by
  induction S with
  | nil => intro i; rfl
  | cons str rest ih =>
    intro i
    cases h : test.runs str <;>
      simp [FuzzInputStringRunTests.loop, h, withoutOutcomes, ih]

/-- The boolean loop registers one sub-test per element, under its printed form. -/
theorem FuzzInputBoolRunTests_loop_names (test : NativeTest) (f : Nat → Bool → Bool)
    (S : List Bool) :
    ∀ i : Nat, registeredNames (FuzzInputBoolRunTests.loop test f i S) = S.map sprintBool := by
  induction S with
  | nil => intro i; rfl
  | cons v rest ih =>
    intro i
    cases h : test.runs (sprintBool v) <;>
      simp [FuzzInputBoolRunTests.loop, h, registeredNames, ih]

/-- The boolean loop calls `testFunc` on the elements whose sub-test the host runs. -/
theorem FuzzInputBoolRunTests_loop_calls (test : NativeTest) (f : Nat → Bool → Bool)
    (S : List Bool) :
    ∀ i : Nat, invocations (FuzzInputBoolRunTests.loop test f i S)
      = (S.enumFrom i).filter (fun p => test.runs (sprintBool p.2)) := by
  induction S with
  | nil => intro i; rfl
  | cons v rest ih =>
    intro i
    cases h : test.runs (sprintBool v) <;>
      simp [FuzzInputBoolRunTests.loop, h, invocations, ih, List.filter_cons]

/-- The calls of the boolean loop, apart from the outcomes, do not depend on `testFunc`. -/
theorem FuzzInputBoolRunTests_loop_outcomes (test : NativeTest) (f g : Nat → Bool → Bool)
    (S : List Bool) :
    ∀ i : Nat, withoutOutcomes (FuzzInputBoolRunTests.loop test f i S)
      = withoutOutcomes (FuzzInputBoolRunTests.loop test g i S) := by
  induction S with
  | nil => intro i; rfl
  | cons v rest ih =>
    intro i
    cases h : test.runs (sprintBool v) <;>
      simp [FuzzInputBoolRunTests.loop, h, withoutOutcomes, ih]

/-- With a native handle, the names and the calls of `FuzzInputStringRunTests` are those of its
loop. -/
theorem FuzzInputStringRunTests_valid (t : TestRunner) (test : NativeTest)
    (hvalid : t.getTest = some test) (S : List String) (f : Nat → String → Bool) :
    registeredNames (FuzzInputStringRunTests t S f) = S ∧
      invocations (FuzzInputStringRunTests t S f)
        = S.enum.filter (fun p => test.runs p.2) := by
  simp only [FuzzInputStringRunTests, hvalid, registeredNames_append, invocations_append,
    FuzzInputStringRunTests_loop_names, FuzzInputStringRunTests_loop_calls, List.enum]
  cases t.isHelper <;> simp [registeredNames, invocations]

/-- With a native handle, the names and the calls of `FuzzInputBoolRunTests` are those of its
loop. -/
theorem FuzzInputBoolRunTests_valid (t : TestRunner) (test : NativeTest)
    (hvalid : t.getTest = some test) (S : List Bool) (f : Nat → Bool → Bool) :
    registeredNames (FuzzInputBoolRunTests t S f) = S.map sprintBool ∧
      invocations (FuzzInputBoolRunTests t S f)
        = S.enum.filter (fun p => test.runs (sprintBool p.2)) := by
  simp only [FuzzInputBoolRunTests, hvalid, registeredNames_append, invocations_append,
    FuzzInputBoolRunTests_loop_names, FuzzInputBoolRunTests_loop_calls, List.enum]
  cases t.isHelper <;> simp [registeredNames, invocations]

theorem filter_all_true {α : Type} (p : α → Bool) (l : List α) (h : ∀ a, p a = true) :
    l.filter p = l :=
  List.filter_eq_self.mpr (fun a _ => h a)

/-- C11: with a native test handle whose host runs each registered sub-test,
`FuzzInputStringRunTests` registers exactly `len(S)` sub-tests in the order of the set, the
`i`-th under the name `S[i]`, and calls `testFunc` exactly once per element, in order, with the
index `i` and the value `S[i]`; equal strings are neither merged nor skipped.  For the set
`FuzzInputStringHtmlTags()` these are 5 calls, in the order of the catalog. -/
theorem C11_string_runTests_each (t : TestRunner) (test : NativeTest)
    (hvalid : t.getTest = some test) (hruns : ∀ name, test.runs name = true)
    (S : List String) (f : Nat → String → Bool) :
    (registeredNames (FuzzInputStringRunTests t S f) = S ∧
      (registeredNames (FuzzInputStringRunTests t S f)).length = S.length ∧
      invocations (FuzzInputStringRunTests t S f) = S.enum ∧
      (invocations (FuzzInputStringRunTests t S f)).length = S.length ∧
      ∀ i : Fin S.length,
        (invocations (FuzzInputStringRunTests t S f))[i.val]? = some (i.val, S.get i)) ∧
    (invocations (FuzzInputStringRunTests t FuzzInputStringHtmlTags f)
        = FuzzInputStringHtmlTags.enum ∧
      (invocations (FuzzInputStringRunTests t FuzzInputStringHtmlTags f)).length = 5 ∧
      (invocations (FuzzInputStringRunTests t FuzzInputStringHtmlTags f)).map Prod.fst
        = [0, 1, 2, 3, 4]) := by
  have hall : ∀ (T : List String),
      registeredNames (FuzzInputStringRunTests t T f) = T ∧
        invocations (FuzzInputStringRunTests t T f) = T.enum := by
    intro T
    obtain ⟨h1, h2⟩ := FuzzInputStringRunTests_valid t test hvalid T f
    exact ⟨h1, by rw [h2]; exact filter_all_true _ _ (fun p => hruns p.2)⟩
  refine ⟨⟨(hall S).1, by rw [(hall S).1], (hall S).2, by rw [(hall S).2]; simp [List.enum],
    ?_⟩, (hall _).2, by rw [(hall _).2]; rfl, by rw [(hall _).2]; rfl⟩
  intro i
  rw [(hall S).2]
  simp [List.enum, List.getElem?_enumFrom, List.getElem?_eq_getElem i.isLt]

/-- C11 at a concrete input: a set with the same string twice, on a host that runs every
sub-test. -/
theorem C11_string_runTests_each_witness :
    registeredNames (FuzzInputStringRunTests { isHelper := true, getTest := some runsAll }
        ["a", "a"] (fun _ _ => true)) = ["a", "a"] ∧
    invocations (FuzzInputStringRunTests { isHelper := true, getTest := some runsAll }
        ["a", "a"] (fun _ _ => true)) = [(0, "a"), (1, "a")] :=
  ⟨(C11_string_runTests_each { isHelper := true, getTest := some runsAll } runsAll rfl
      (fun _ => rfl) ["a", "a"] (fun _ _ => true)).1.1,
   (C11_string_runTests_each { isHelper := true, getTest := some runsAll } runsAll rfl
      (fun _ => rfl) ["a", "a"] (fun _ _ => true)).1.2.2.1⟩

/-- C12: with a native test handle whose host runs each registered sub-test,
`FuzzInputBoolRunTests` calls `testFunc` exactly once per element, in the order of the set, with
the index `i` and the value `S[i]`, the `i`-th sub-test registered under the printed form of
`S[i]`; for the set `[true, false]` there are exactly two calls, `(0, true)` and then
`(1, false)`. -/
theorem C12_bool_runTests_each (t : TestRunner) (test : NativeTest)
    (hvalid : t.getTest = some test) (hruns : ∀ name, test.runs name = true)
    (S : List Bool) (f : Nat → Bool → Bool) :
    (registeredNames (FuzzInputBoolRunTests t S f) = S.map sprintBool ∧
      (∀ v : Bool, sprintBool v = if v = true then "true" else "false") ∧
      invocations (FuzzInputBoolRunTests t S f) = S.enum ∧
      (invocations (FuzzInputBoolRunTests t S f)).length = S.length ∧
      ∀ i : Fin S.length,
        (invocations (FuzzInputBoolRunTests t S f))[i.val]? = some (i.val, S.get i)) ∧
    (invocations (FuzzInputBoolRunTests t [true, false] f) = [(0, true), (1, false)] ∧
      registeredNames (FuzzInputBoolRunTests t [true, false] f) = ["true", "false"]) := by
  have hall : ∀ (T : List Bool),
      registeredNames (FuzzInputBoolRunTests t T f) = T.map sprintBool ∧
        invocations (FuzzInputBoolRunTests t T f) = T.enum := by
    intro T
    obtain ⟨h1, h2⟩ := FuzzInputBoolRunTests_valid t test hvalid T f
    exact ⟨h1, by rw [h2]; exact filter_all_true _ _ (fun p => hruns _)⟩
  refine ⟨⟨(hall S).1, fun v => by cases v <;> rfl, (hall S).2,
    by rw [(hall S).2]; simp [List.enum], ?_⟩, by rw [(hall _).2]; rfl, by rw [(hall _).1]; rfl⟩
  intro i
  rw [(hall S).2]
  simp [List.enum, List.getElem?_enumFrom, List.getElem?_eq_getElem i.isLt]

/-- C12 at a concrete input: the set `[true, false]` on a host that runs every sub-test. -/
theorem C12_bool_runTests_each_witness :
    invocations (FuzzInputBoolRunTests { isHelper := false, getTest := some runsAll }
        [true, false] (fun _ v => v)) = [(0, true), (1, false)] ∧
    registeredNames (FuzzInputBoolRunTests { isHelper := false, getTest := some runsAll }
        [true, false] (fun _ v => v)) = ["true", "false"] :=
  (C12_bool_runTests_each { isHelper := false, getTest := some runsAll } runsAll rfl
      (fun _ => rfl) [true, false] (fun _ v => v)).2

/-- C13: with a native test handle, the outcomes of the sub-tests change nothing in what
`RunTests` does next: for two assignments `f` and `g` of pass or fail to the calls of `testFunc`,
the runs are the same apart from the recorded outcomes, and on a host that runs each registered
sub-test both register a sub-test for every element and call `testFunc` on every element, in
order, for strings and for booleans. -/
theorem C13_outcomes_independent (t : TestRunner) (test : NativeTest)
    (hvalid : t.getTest = some test) (hruns : ∀ name, test.runs name = true)
    (S : List String) (f g : Nat → String → Bool)
    (B : List Bool) (p q : Nat → Bool → Bool) :
    (withoutOutcomes (FuzzInputStringRunTests t S f)
        = withoutOutcomes (FuzzInputStringRunTests t S g) ∧
      registeredNames (FuzzInputStringRunTests t S f) = S ∧
      registeredNames (FuzzInputStringRunTests t S g) = S ∧
      invocations (FuzzInputStringRunTests t S f) = S.enum ∧
      invocations (FuzzInputStringRunTests t S g) = S.enum) ∧
    (withoutOutcomes (FuzzInputBoolRunTests t B p)
        = withoutOutcomes (FuzzInputBoolRunTests t B q) ∧
      registeredNames (FuzzInputBoolRunTests t B p) = B.map sprintBool ∧
      registeredNames (FuzzInputBoolRunTests t B q) = B.map sprintBool ∧
      invocations (FuzzInputBoolRunTests t B p) = B.enum ∧
      invocations (FuzzInputBoolRunTests t B q) = B.enum) := by
  have hs : ∀ h : Nat → String → Bool,
      registeredNames (FuzzInputStringRunTests t S h) = S ∧
        invocations (FuzzInputStringRunTests t S h) = S.enum := by
    intro h
    obtain ⟨h1, h2⟩ := FuzzInputStringRunTests_valid t test hvalid S h
    exact ⟨h1, by rw [h2]; exact filter_all_true _ _ (fun p => hruns p.2)⟩
  have hb : ∀ h : Nat → Bool → Bool,
      registeredNames (FuzzInputBoolRunTests t B h) = B.map sprintBool ∧
        invocations (FuzzInputBoolRunTests t B h) = B.enum := by
    intro h
    obtain ⟨h1, h2⟩ := FuzzInputBoolRunTests_valid t test hvalid B h
    exact ⟨h1, by rw [h2]; exact filter_all_true _ _ (fun p => hruns _)⟩
  refine ⟨⟨?_, (hs f).1, (hs g).1, (hs f).2, (hs g).2⟩,
    ⟨?_, (hb p).1, (hb q).1, (hb p).2, (hb q).2⟩⟩
  · simp only [FuzzInputStringRunTests, hvalid, withoutOutcomes_append]
    rw [FuzzInputStringRunTests_loop_outcomes test f g S 0]
  · simp only [FuzzInputBoolRunTests, hvalid, withoutOutcomes_append]
    rw [FuzzInputBoolRunTests_loop_outcomes test p q B 0]

/-- C13 at a concrete input: every sub-test failing against every sub-test passing, on two
strings and on `[true, false]`. -/
theorem C13_outcomes_independent_witness :
    invocations (FuzzInputStringRunTests { isHelper := true, getTest := some runsAll }
        ["a", "b"] (fun _ _ => false)) = [(0, "a"), (1, "b")] ∧
    invocations (FuzzInputBoolRunTests { isHelper := true, getTest := some runsAll }
        [true, false] (fun _ _ => false)) = [(0, true), (1, false)] :=
  ⟨(C13_outcomes_independent { isHelper := true, getTest := some runsAll } runsAll rfl
      (fun _ => rfl) ["a", "b"] (fun _ _ => false) (fun _ _ => true) [true, false]
      (fun _ _ => false) (fun _ _ => true)).1.2.2.2.1,
   (C13_outcomes_independent { isHelper := true, getTest := some runsAll } runsAll rfl
      (fun _ => rfl) ["a", "b"] (fun _ _ => false) (fun _ _ => true) [true, false]
      (fun _ _ => false) (fun _ _ => true)).2.2.2.2.1⟩

/-! ## The limiter as a prefix -/

/-- The three branches of `FuzzInputStringLimit` in one: the first `max(max, 0)` elements. -/
theorem FuzzInputStringLimit_eq_take (S : List String) (a : Int) :
    FuzzInputStringLimit S a = .ok (S.take (max a 0).toNat) := by
  by_cases h1 : (S.length : Int) ≤ a
  · have h : S.length ≤ (max a 0).toNat := by omega
    simp [FuzzInputStringLimit, h1, List.take_of_length_le h]
  · by_cases h2 : a ≤ 0
    · have h : (max a 0).toNat = 0 := by omega
      simp [FuzzInputStringLimit, h1, h2, h]
    · have h : (max a 0).toNat = a.toNat := by
        have : max a 0 = a := by omega
        rw [this]
      have h3 : 0 ≤ a ∧ a ≤ (S.length : Int) := by omega
      simp [FuzzInputStringLimit, sliceTo, h1, h2, h, h3]

/-- C14: `FuzzInputStringLimit` returns normally for every set and every `max`, negative or
larger than `len(S)`; and on the one path that evaluates `testSet[:max]` (neither
`len(testSet) <= max` nor `max <= 0`), `0 < max < len(S)` holds and the slice expression is
within bounds. -/
theorem C14_limit_never_panics (S : List String) (max : Int) :
    (∃ r : List String, FuzzInputStringLimit S max = .ok r) ∧
    (¬ (S.length : Int) ≤ max → ¬ max ≤ 0 →
      FuzzInputStringLimit S max = sliceTo S max ∧ 0 < max ∧ max < (S.length : Int) ∧
        sliceTo S max = .ok (S.take max.toNat)) := by
  refine ⟨⟨_, FuzzInputStringLimit_eq_take S max⟩, fun h1 h2 => ?_⟩
  have h3 : 0 ≤ max ∧ max ≤ (S.length : Int) := by omega
  refine ⟨by simp [FuzzInputStringLimit, h1, h2], by omega, by omega, ?_⟩
  simp [sliceTo, h3]

/-- C14 at concrete inputs: a negative `max`, a `max` larger than the set, and a `max` inside
the set, where the slice expression is evaluated. -/
theorem C14_limit_never_panics_witness :
    (∃ r : List String, FuzzInputStringLimit ["a", "b"] (-3) = .ok r) ∧
    (∃ r : List String, FuzzInputStringLimit ["a", "b"] 7 = .ok r) ∧
    (FuzzInputStringLimit ["a", "b", "c"] 2 = sliceTo ["a", "b", "c"] 2 ∧ (0 : Int) < 2 ∧
      (2 : Int) < ((["a", "b", "c"] : List String).length : Int) ∧
      sliceTo ["a", "b", "c"] 2 = .ok (["a", "b", "c"].take (2 : Int).toNat)) :=
  ⟨(C14_limit_never_panics ["a", "b"] (-3)).1,
   (C14_limit_never_panics ["a", "b"] 7).1,
   (C14_limit_never_panics ["a", "b", "c"] 2).2 (by decide) (by decide)⟩

/-- C16: `FuzzInputBoolFull` is exactly `[true, false]`: length 2, `true` at the index 0 and
`false` at the index 1. -/
theorem C16_boolFull :
    FuzzInputBoolFull = [true, false] ∧ FuzzInputBoolFull.length = 2 ∧
      FuzzInputBoolFull[0]? = some true ∧ FuzzInputBoolFull[1]? = some false :=
  ⟨rfl, rfl, rfl, rfl⟩

/-- C17: `FuzzInputStringEmpty` has exactly one element, the empty string. -/
theorem C17_stringEmpty :
    FuzzInputStringEmpty.length = 1 ∧ FuzzInputStringEmpty = [""] ∧
      FuzzInputStringEmpty[0]? = some "" ∧ ("" : String).length = 0 :=
  ⟨rfl, rfl, rfl, rfl⟩

/-- C18: `FuzzInputStringLimit(S, a)` is the first `max(a, 0)` elements of `S`: a prefix of `S`
of length `min(len(S), max(a, 0))`; limits compose, `Limit(Limit(S, a), b)` is
`Limit(S, min(a, b))`; and `Limit` is idempotent. -/
theorem C18_limit_prefix_compose (S : List String) (a b : Int) :
    FuzzInputStringLimit S a = .ok (S.take (max a 0).toNat) ∧
    (((S.take (max a 0).toNat).length : Int) = min (S.length : Int) (max a 0)) ∧
    (∃ rest : List String, S = S.take (max a 0).toNat ++ rest) ∧
    (∃ r1 r2 : List String, FuzzInputStringLimit S a = .ok r1 ∧
      FuzzInputStringLimit r1 b = .ok r2 ∧ FuzzInputStringLimit S (min a b) = .ok r2) ∧
    (∃ r1 : List String, FuzzInputStringLimit S a = .ok r1 ∧
      FuzzInputStringLimit r1 a = .ok r1) := by
  refine ⟨FuzzInputStringLimit_eq_take S a, ?_, ⟨S.drop (max a 0).toNat, ?_⟩, ?_, ?_⟩
  · simp only [List.length_take]
    omega
  · exact (List.take_append_drop _ S).symm
  · refine ⟨_, _, FuzzInputStringLimit_eq_take S a, FuzzInputStringLimit_eq_take _ b, ?_⟩
    rw [FuzzInputStringLimit_eq_take S (min a b), List.take_take]
    congr 2
    omega
  · refine ⟨_, FuzzInputStringLimit_eq_take S a, ?_⟩
    rw [FuzzInputStringLimit_eq_take, List.take_take, Nat.min_self]

/-! ## The empty string in the full set -/

/-- The full set has the empty string at the index 53, from `FuzzInputStringEmpty`, and at the
index 79, from the random string of length 0. -/
theorem FuzzInputStringFull_empty_twice (src : RandSource) :
    ∃ (ret : List String) (src1 : RandSource),
      FuzzInputStringFull src = .ok (ret, src1) ∧ ret[53]? = some "" ∧ ret[79]? = some "" ∧
        2 ≤ ret.count "" := by
  obtain ⟨long, rnd, -, src2, -, hfull, hl, hr, hrnd⟩ := FuzzInputStringFull_spec src
  have hU : FuzzInputStringUsernames.length = 10 := by decide
  have hH : FuzzInputStringHtmlTags.length = 5 := by decide
  have hE : FuzzInputStringEmailAddresses.length = 38 := by decide
  have hM : FuzzInputStringEmpty.length = 1 := by decide
  have hN : FuzzInputStringNumeric.length = 20 := by decide
  obtain ⟨s, hs, hsl, -, -⟩ := hrnd 0 (by decide)
  have hs0 : s = "" := String.ext (List.length_eq_zero.mp hsl)
  rw [hs0] at hs
  have hmem : "" ∈ rnd := List.getElem?_mem hs
  refine ⟨_, src2, hfull, ?_, ?_, ?_⟩
  · have h := getElem?_append_after (FuzzInputStringUsernames ++ FuzzInputStringHtmlTags ++
        FuzzInputStringEmailAddresses) (FuzzInputStringEmpty ++ (FuzzInputStringNumeric ++
          (long ++ rnd))) 53 (by simp only [List.length_append, hU, hH, hE]; omega)
    simp only [List.length_append, hU, hH, hE, List.append_assoc] at h
    rw [h]
    rfl
  · have h := getElem?_append_after (FuzzInputStringUsernames ++ FuzzInputStringHtmlTags ++
        FuzzInputStringEmailAddresses ++ FuzzInputStringEmpty ++ FuzzInputStringNumeric ++ long)
      rnd 79 (by simp only [List.length_append, hU, hH, hE, hM, hN, hl]; omega)
    simp only [List.length_append, hU, hH, hE, hM, hN, hl, List.append_assoc] at h
    rw [h, ← hs]
  · have h1 : 1 ≤ List.count "" FuzzInputStringEmpty := by decide
    have h2 : 1 ≤ List.count "" rnd := List.count_pos_iff.mpr hmem
    simp only [List.count_append]
    omega

/-- C19: for every state of the random source, `FuzzInputStringFull` has the empty string at the
two indices 53 and 79, so `FuzzInputStringRunTests` on the full set, with a native test handle,
registers at least two sub-tests under the same, empty, name. -/
theorem C19_full_empty_name_twice (src : RandSource) (t : TestRunner) (test : NativeTest)
    (hvalid : t.getTest = some test) (f : Nat → String → Bool) :
    ∃ (ret : List String) (src1 : RandSource),
      FuzzInputStringFull src = .ok (ret, src1) ∧
        ret[53]? = some "" ∧ ret[79]? = some "" ∧ (53 : Nat) ≠ 79 ∧
        2 ≤ (registeredNames (FuzzInputStringRunTests t ret f)).count "" := by
  obtain ⟨ret, src1, hfull, h53, h79, hcount⟩ := FuzzInputStringFull_empty_twice src
  refine ⟨ret, src1, hfull, h53, h79, by decide, ?_⟩
  rw [(FuzzInputStringRunTests_valid t test hvalid ret f).1]
  exact hcount

/-- C19 at a concrete input: the example source, and a host that runs every sub-test. -/
theorem C19_full_empty_name_twice_witness :
    ∃ (ret : List String) (src1 : RandSource),
      FuzzInputStringFull exampleSource = .ok (ret, src1) ∧
        ret[53]? = some "" ∧ ret[79]? = some "" ∧ (53 : Nat) ≠ 79 ∧
        2 ≤ (registeredNames (FuzzInputStringRunTests
          { isHelper := true, getTest := some runsAll } ret (fun _ _ => true))).count "" :=
  C19_full_empty_name_twice exampleSource { isHelper := true, getTest := some runsAll } runsAll
    rfl (fun _ _ => true)

/-! ## Storage: which transforms return a fresh slice -/

theorem store_array_set_ne {α : Type} (st : Store α) (j k : Nat) (a : List α) (h : k ≠ j) :
    Store.array (st.set j a) k = Store.array st k := by
  simp [Store.array, List.getD_eq_getElem?_getD, List.getElem?_set_ne (Ne.symm h)]

theorem store_array_set_eq {α : Type} (st : Store α) (j : Nat) (a : List α)
    (h : j < st.length) : Store.array (st.set j a) j = a := by
  simp [Store.array, List.getD_eq_getElem?_getD, List.getElem?_set_self, h]

theorem store_array_append_lt {α : Type} (st : Store α) (a : List α) (k : Nat)
    (h : k < st.length) : Store.array (st ++ [a]) k = Store.array st k := by
  simp [Store.array, List.getD_eq_getElem?_getD, List.getElem?_append_left h]

theorem store_array_append_eq {α : Type} (st : Store α) (a : List α) :
    Store.array (st ++ [a]) st.length = a := by
  simp [Store.array, List.getD_eq_getElem?_getD]

/-- A valid slice has as many elements as its length says. -/
theorem store_elems_length {α : Type} (st : Store α) (s : Slice) (hl : s.len ≤ s.cap)
    (hb : s.cap = 0 ∨ s.off + s.cap ≤ (st.array s.arr).length) :
    (st.elems s).length = s.len := by
  simp only [Store.elems, List.length_take, List.length_drop]
  omega

/-- The elements of a slice depend on its backing array only. -/
theorem store_elems_congr {α : Type} (st st1 : Store α) (s : Slice)
    (h : s.len = 0 ∨ st1.array s.arr = st.array s.arr) : st1.elems s = st.elems s := by
  rcases h with h | h
  · simp [Store.elems, h]
  · simp [Store.elems, h]

/-- A store that keeps `st0` reads every slice of `st0` as `st0` does. -/
theorem store_keeps_elems {α : Type} (st0 st : Store α) (s : Slice) (hk : st0.keeps st)
    (hs : st0.holds s) : st.elems s = st0.elems s := by
  apply store_elems_congr
  rcases hs.2 with h | h
  · left; have := hs.1; omega
  · right; exact hk.2 _ h.1

/-- Writing just after the first `n` elements of a window of a list extends the window by the
value written. -/
theorem take_drop_set_next {α : Type} (l : List α) (o n : Nat) (v : α)
    (h : o + n < l.length) :
    ((l.set (o + n) v).drop o).take (n + 1) = (l.drop o).take n ++ [v] := by
  apply List.ext_getElem?
  intro i
  by_cases h1 : i < n
  · have h2 : ¬ o + n = o + i := by omega
    have h3 : i < ((l.drop o).take n).length := by
      simp only [List.length_take, List.length_drop]; omega
    simp [List.getElem?_take, List.getElem?_drop, List.getElem?_set, h2,
      List.getElem?_append_left h3, h1, Nat.lt_succ_of_lt h1]
  · by_cases h4 : i = n
    · subst h4
      have h5 : ((l.drop o).take i).length = i := by
        simp only [List.length_take, List.length_drop]; omega
      have h6 : ((l.drop o).take i ++ [v])[i]? = some v := by
        rw [getElem?_append_after _ _ i (by omega), h5]
        simp
      rw [h6]
      simp [List.getElem?_take, List.getElem?_drop, List.getElem?_set, h]
    · have h7 : ¬ i < n + 1 := by omega
      have h8 : ((l.drop o).take n ++ [v]).length ≤ i := by
        simp only [List.length_append, List.length_take, List.length_drop, List.length_singleton]
        omega
      rw [List.getElem?_eq_none h8]
      simp [List.getElem?_take, h7]

/-- One `append` on a slice allocated after `st0`: the store still keeps `st0`, the result is
again a slice allocated after `st0`, and its elements are those of the slice and the value. -/
theorem store_append_spec {α : Type} (growCap : Nat → Nat) (zero : α) (st0 st : Store α)
    (s : Slice) (v : α) (hk : st0.keeps st) (hf : st0.freshIn st s) :
    st0.keeps (Store.append growCap zero st s v).2 ∧
      st0.freshIn (Store.append growCap zero st s v).2 (Store.append growCap zero st s v).1 ∧
      (Store.append growCap zero st s v).2.elems (Store.append growCap zero st s v).1
        = st.elems s ++ [v] := by
  obtain ⟨hk1, hk2⟩ := hk
  obtain ⟨hl, hb⟩ := hf
  by_cases h : s.len < s.cap
  · have hc : ¬ s.cap = 0 := by omega
    obtain ⟨ha0, ha1, ha2⟩ := hb.resolve_left hc
    simp only [Store.append, h, if_true]
    refine ⟨⟨by simpa using hk1, fun k hlt => ?_⟩, ⟨by simpa using h, Or.inr ⟨ha0, ?_, ?_⟩⟩, ?_⟩
    · rw [store_array_set_ne _ _ _ _ (by omega)]
      exact hk2 k hlt
    · simpa using ha1
    · rw [store_array_set_eq _ _ _ ha1]
      simpa using ha2
    · simp only [Store.elems]
      rw [store_array_set_eq _ _ _ ha1]
      exact take_drop_set_next _ _ _ _ (by omega)
  · have hlen : (st.elems s).length = s.len :=
      store_elems_length st s hl (hb.imp id (fun x => x.2.2))
    simp only [Store.append, h, if_false]
    refine ⟨⟨by simp only [List.length_append, List.length_singleton]; omega, fun k hlt => ?_⟩,
      ⟨by simp only; omega, Or.inr ⟨hk1, by simp, ?_⟩⟩, ?_⟩
    · rw [store_array_append_lt _ _ _ (by omega)]
      exact hk2 k hlt
    · rw [store_array_append_eq]
      simp only [List.length_append, List.length_singleton, List.length_replicate, hlen]
      omega
    · simp only [Store.elems]
      rw [store_array_append_eq, List.drop_zero]
      have hlen1 := hlen
      simp only [Store.elems] at hlen1
      exact take_drop_append [] _ _ 0 _ rfl
        (by simp only [List.length_append, List.length_singleton, hlen1])

/-- The loop of `Modify` over the store, started on a result slice allocated after `st0`: it
returns, the store still keeps `st0`, the result is a slice allocated after `st0`, and its
elements are those of `ret` followed by `modifier(j, S[j])` for the indices `j` from `i` on,
`S` the elements of the input. -/
theorem modifyStoredLoop_spec {α : Type} (growCap : Nat → Nat) (zero : α) (f : Nat → α → α)
    (st0 : Store α) (input : Slice) (hin : st0.holds input) :
    ∀ (n i : Nat) (ret : Slice) (st : Store α), i + n = input.len → st0.keeps st →
      st0.freshIn st ret →
      ∃ (res : Slice) (st1 : Store α),
        modifyStoredLoop growCap zero f input n i ret st = .ok (res, st1) ∧
          st0.keeps st1 ∧ st0.freshIn st1 res ∧
          st1.elems res = st.elems ret ++
            (((st0.elems input).drop i).enumFrom i).map (fun p => f p.1 p.2) := by
  have hS : (st0.elems input).length = input.len :=
    store_elems_length st0 input hin.1 (hin.2.imp id (fun x => x.2))
  intro n
  induction n with
  | zero =>
    intro i ret st hi hk hf
    refine ⟨ret, st, rfl, hk, hf, ?_⟩
    have hd : (st0.elems input).drop i = [] := List.drop_eq_nil_of_le (by omega)
    simp [hd]
  | succ n ih =>
    intro i ret st hi hk hf
    have hlt : i < (st0.elems input).length := by omega
    have hget : (st.elems input)[i]? = some ((st0.elems input).get ⟨i, hlt⟩) := by
      rw [store_keeps_elems st0 st input hk hin, List.getElem?_eq_getElem hlt]
      rfl
    obtain ⟨hk1, hf1, he1⟩ :=
      store_append_spec growCap zero st0 st ret (f i ((st0.elems input).get ⟨i, hlt⟩)) hk hf
    obtain ⟨res, st1, hloop, hk2, hf2, he2⟩ := ih (i + 1) _ _ (by omega) hk1 hf1
    refine ⟨res, st1, ?_, hk2, hf2, ?_⟩
    · simp only [modifyStoredLoop, hget]
      exact hloop
    · rw [he2, he1]
      have hd : (st0.elems input).drop i
          = (st0.elems input).get ⟨i, hlt⟩ :: (st0.elems input).drop (i + 1) := by
        rw [List.drop_eq_getElem_cons hlt]
        rfl
      rw [hd]
      simp only [List.enumFrom_cons, List.map_cons, List.append_assoc, List.singleton_append]

/-- What a slice allocated after the store `st` means for a slice `input` of `st`: no shared
storage, the input reads as before, and a write to an element of the result leaves it so. -/
theorem store_fresh_apart {α : Type} (st st1 : Store α) (input res : Slice)
    (hin : st.holds input) (hk : st.keeps st1) (hf : st.freshIn st1 res) :
    ¬ res.sharesStorage input ∧ st1.elems input = st.elems input ∧
      ∀ (i : Nat) (v : α) (st2 : Store α), st1.assign res i v = .ok st2 →
        st2.elems input = st.elems input := by
  refine ⟨?_, store_keeps_elems st st1 input hk hin, ?_⟩
  · rintro ⟨h1, h2, h3, -, -⟩
    have ha := (hf.2.resolve_left (by omega)).1
    have hb := (hin.2.resolve_left (by omega)).1
    omega
  · intro i v st2 hw
    by_cases hi : i < res.len
    · simp only [Store.assign, hi, if_true, Except.ok.injEq] at hw
      have ha := (hf.2.resolve_left (by have := hf.1; omega)).1
      apply store_keeps_elems st st2 input ?_ hin
      subst hw
      refine ⟨by simpa using hk.1, fun k hlt => ?_⟩
      rw [store_array_set_ne _ _ _ _ (by omega)]
      exact hk.2 k hlt
    · simp [Store.assign, hi] at hw

/-- The two `Modify` functions over the store, for a valid input slice: the call returns, the
elements of its result are those of the function on lists, the result is allocated after the
store of the call, and with it what `store_fresh_apart` says. -/
theorem modifyStored_spec {α : Type} (growCap : Nat → Nat) (zero : α) (f : Nat → α → α)
    (st : Store α) (input : Slice) (hin : st.holds input) :
    ∃ (res : Slice) (st1 : Store α),
      modifyStoredLoop growCap zero f input input.len 0 nilSlice st = .ok (res, st1) ∧
        st1.elems res = (st.elems input).enum.map (fun p => f p.1 p.2) ∧
        st.keeps st1 ∧ st.freshIn st1 res := by
  obtain ⟨res, st1, h, hk, hf, he⟩ :=
    modifyStoredLoop_spec growCap zero f st input hin input.len 0 nilSlice st (by omega)
      ⟨le_refl _, fun _ _ => rfl⟩ ⟨le_refl _, Or.inl rfl⟩
  refine ⟨res, st1, h, ?_, hk, hf⟩
  rw [he]
  simp [Store.elems, nilSlice, List.enum]

/-- The function `FuzzInputStringLimit` over the store, for a valid input slice: the call
returns, the store keeps every array it had, and the elements of the result are those of the
function on lists. -/
theorem FuzzInputStringLimitStored_spec (st : Store String) (testSet : Slice) (max : Int)
    (hin : st.holds testSet) :
    ∃ (res : Slice) (st1 : Store String),
      FuzzInputStringLimitStored st testSet max = .ok (res, st1) ∧ st.keeps st1 ∧
        FuzzInputStringLimit (st.elems testSet) max = .ok (st1.elems res) ∧
        (0 < max → 0 < testSet.len →
          st1 = st ∧ res.arr = testSet.arr ∧ res.off = testSet.off ∧ res.cap = testSet.cap ∧
            0 < res.len ∧ res.len ≤ testSet.len) ∧
        (max ≤ 0 → 0 < testSet.len → res.len = 0 ∧ res.cap = 0) := by
  have hS : (st.elems testSet).length = testSet.len :=
    store_elems_length st testSet hin.1 (hin.2.imp id (fun x => x.2))
  by_cases h1 : (testSet.len : Int) ≤ max
  · refine ⟨testSet, st, by simp [FuzzInputStringLimitStored, h1], ⟨le_refl _, fun _ _ => rfl⟩,
      by simp [FuzzInputStringLimit, hS, h1], fun _ h => ⟨rfl, rfl, rfl, rfl, h, le_refl _⟩,
      fun _ _ => by omega⟩
  · by_cases h2 : max ≤ 0
    · refine ⟨{ arr := st.length, off := 0, len := 0, cap := 0 }, st ++ [[]],
        by simp only [FuzzInputStringLimitStored, h1, h2, if_true, if_false],
        ⟨by simp, fun k hk => store_array_append_lt _ _ _ hk⟩, ?_, fun h => by omega,
        fun _ _ => ⟨rfl, rfl⟩⟩
      rw [FuzzInputStringLimit_eq_take]
      have hz : (Max.max max 0).toNat = 0 := by omega
      simp [Store.elems, hz]
    · have h3 : 0 ≤ max ∧ max ≤ (testSet.cap : Int) := by have := hin.1; omega
      refine ⟨{ testSet with len := max.toNat }, st,
        by simp only [FuzzInputStringLimitStored, h1, h2, h3, if_true, if_false, and_self],
        ⟨le_refl _, fun _ _ => rfl⟩, ?_,
        fun _ _ => ⟨rfl, rfl, rfl, rfl, by simp only; omega, by simp only; omega⟩,
        fun _ _ => by omega⟩
      rw [FuzzInputStringLimit_eq_take]
      have hm : (Max.max max 0).toNat = max.toNat := by
        have : Max.max max 0 = max := by omega
        rw [this]
      simp only [Store.elems, hm, List.take_take]
      congr 2
      omega

/-- C15, at a concrete input: over a store with the one array `["a", "b"]`,
`FuzzInputStringLimit` with `max = 5` returns the very slice it was given, and with `max = 1` a
slice of the same backing array; in both cases writing `"x"` to the element 0 of the result
turns the input set `["a", "b"]` into `["x", "b"]`. -/
theorem C15_limit_shares_storage_counterexample :
    (FuzzInputStringLimitStored exampleStore exampleSlice 5 = .ok (exampleSlice, exampleStore) ∧
      exampleSlice.sharesStorage exampleSlice ∧
      Store.assign exampleStore exampleSlice 0 "x" = .ok [["x", "b"]]) ∧
    (FuzzInputStringLimitStored exampleStore exampleSlice 1
        = .ok ({ arr := 0, off := 0, len := 1, cap := 2 }, exampleStore) ∧
      Slice.sharesStorage { arr := 0, off := 0, len := 1, cap := 2 } exampleSlice ∧
      Store.assign exampleStore { arr := 0, off := 0, len := 1, cap := 2 } 0 "x"
        = .ok [["x", "b"]]) ∧
    Store.elems exampleStore exampleSlice = ["a", "b"] ∧
    Store.elems [["x", "b"]] exampleSlice = ["x", "b"] ∧
    Store.elems [["x", "b"]] exampleSlice ≠ Store.elems exampleStore exampleSlice :=
  ⟨⟨rfl, by decide, rfl⟩, ⟨rfl, by decide, rfl⟩, rfl, rfl, by decide⟩

/-- C15, amended: `FuzzInputStringModify` and `FuzzInputBoolModify` return a slice that shares
no storage with the input set, they leave the input set as it was, and a write to an element of
their result leaves it so.  `FuzzInputStringLimit` leaves the input set as it was too, but when
`max` and the length of the set are positive its result is a slice of the backing array of the
input set: it shares storage with it, and a write to the element `i` of the result is a write to
the element `i` of the input set.  When `max <= 0` and the set is not empty, the result has no
storage. -/
theorem C15_transforms_storage (growCap : Nat → Nat)
    (st : Store String) (input : Slice) (hin : st.holds input) (f : Nat → String → String)
    (max : Int)
    (stB : Store Bool) (inputB : Slice) (hinB : stB.holds inputB) (g : Nat → Bool → Bool) :
    (∃ (res : Slice) (st1 : Store String),
      FuzzInputStringModifyStored growCap st input f = .ok (res, st1) ∧
        st1.elems res = FuzzInputStringModify (st.elems input) f ∧
        ¬ res.sharesStorage input ∧ st1.elems input = st.elems input ∧
        ∀ (i : Nat) (v : String) (st2 : Store String), st1.assign res i v = .ok st2 →
          st2.elems input = st.elems input) ∧
    (∃ (res : Slice) (st1 : Store Bool),
      FuzzInputBoolModifyStored growCap stB inputB g = .ok (res, st1) ∧
        st1.elems res = FuzzInputBoolModify (stB.elems inputB) g ∧
        ¬ res.sharesStorage inputB ∧ st1.elems inputB = stB.elems inputB ∧
        ∀ (i : Nat) (v : Bool) (st2 : Store Bool), st1.assign res i v = .ok st2 →
          st2.elems inputB = stB.elems inputB) ∧
    (∃ (res : Slice) (st1 : Store String),
      FuzzInputStringLimitStored st input max = .ok (res, st1) ∧
        FuzzInputStringLimit (st.elems input) max = .ok (st1.elems res) ∧
        st1.elems input = st.elems input ∧
        (0 < max → 0 < input.len →
          res.sharesStorage input ∧
            ∀ (i : Nat) (v : String), i < res.len →
              ∃ st2 : Store String, st1.assign res i v = .ok st2 ∧
                (st2.elems input)[i]? = some v) ∧
        (max ≤ 0 → 0 < input.len → res.len = 0 ∧ ¬ res.sharesStorage input)) := by
  refine ⟨?_, ?_, ?_⟩
  · obtain ⟨res, st1, h, he, hk, hf⟩ := modifyStored_spec growCap "" f st input hin
    obtain ⟨a1, a2, a3⟩ := store_fresh_apart st st1 input res hin hk hf
    exact ⟨res, st1, h, by rw [he, FuzzInputStringModify_eq], a1, a2, a3⟩
  · obtain ⟨res, st1, h, he, hk, hf⟩ := modifyStored_spec growCap false g stB inputB hinB
    obtain ⟨a1, a2, a3⟩ := store_fresh_apart stB st1 inputB res hinB hk hf
    exact ⟨res, st1, h, by rw [he, FuzzInputBoolModify_eq], a1, a2, a3⟩
  · obtain ⟨res, st1, h, hk, he, hpos, hneg⟩ := FuzzInputStringLimitStored_spec st input max hin
    refine ⟨res, st1, h, he, store_keeps_elems st st1 input hk hin, ?_, ?_⟩
    · intro hm hl
      obtain ⟨hst, harr, hoff, hcap, hr0, hrl⟩ := hpos hm hl
      subst hst
      have hc := hin.1
      obtain ⟨hb1, hb2⟩ := hin.2.resolve_left (by omega)
      refine ⟨⟨harr, by omega, by omega, by omega, by omega⟩, fun i v hi => ?_⟩
      refine ⟨st1.set res.arr ((st1.array res.arr).set (res.off + i) v),
        by simp only [Store.assign, hi, if_true], ?_⟩
      simp only [Store.elems]
      rw [harr, hoff, store_array_set_eq _ _ _ hb1]
      have h1 : i < input.len := by omega
      have h2 : input.off + i < (st1.array input.arr).length := by omega
      simp [List.getElem?_take, List.getElem?_drop, List.getElem?_set_self, h1, h2]
    · intro hm hl
      obtain ⟨h0, hc0⟩ := hneg hm hl
      refine ⟨h0, ?_⟩
      rintro ⟨-, hc, -⟩
      omega

/-- C15, amended, at a concrete input: the example store, with a runtime that doubles the
capacity, and a store with the one array `[true, false]`. -/
theorem C15_transforms_storage_witness :
    ∃ (res : Slice) (st1 : Store String),
      FuzzInputStringModifyStored (fun c => 2 * c) exampleStore exampleSlice
          (fun _ v => "-" ++ v) = .ok (res, st1) ∧
        st1.elems res = FuzzInputStringModify (exampleStore.elems exampleSlice)
          (fun _ v => "-" ++ v) ∧
        ¬ res.sharesStorage exampleSlice ∧
        st1.elems exampleSlice = exampleStore.elems exampleSlice ∧
        ∀ (i : Nat) (v : String) (st2 : Store String), st1.assign res i v = .ok st2 →
          st2.elems exampleSlice = exampleStore.elems exampleSlice :=
  (C15_transforms_storage (fun c => 2 * c) exampleStore exampleSlice (by decide)
    (fun _ v => "-" ++ v) 1 [[true, false]] exampleSlice (by decide) (fun _ v => !v)).1

end Testza
